import Mathlib

/-!
Verification development for the `symphony` article-to-asciidoc converter
(`src/main.py`).  The Python program is shallowly embedded: pure helpers
become Lean functions, the filesystem and HTTP collaborators become explicit
state (`FS`) and a request log, `exit(1)` and uncaught Python exceptions
become `Except` errors.  Definitions follow the source line by line; comments
cite the corresponding lines of `main.py`.
-/

set_option maxRecDepth 100000

deriving instance DecidableEq for Except

namespace Symphony

/-! ## Generic string helpers (models of Python primitives)

All character-level work happens on `String.data` with structurally
recursive functions, so that every definition evaluates by kernel
reduction. -/

/-- Substring containment on character lists. -/
def containsSubL (pat : List Char) : List Char → Bool
  | [] => pat == []
  | c :: cs => (c :: cs).take pat.length == pat || containsSubL pat cs

/-- Python `pat in s` substring containment test. -/
def strContainsSub (s pat : String) : Bool :=
  containsSubL pat.data s.data

/-- Python `c in s` for a single character. -/
def strContains (s : String) (c : Char) : Bool :=
  s.data.any (fun x => x == c)

/-- Split at the first occurrence of `pat`: `some (before, after)`, or
`none` when `pat` does not occur. -/
def splitFirstL (pat : List Char) : List Char → Option (List Char × List Char)
  | [] => if pat == [] then some ([], []) else none
  | c :: cs =>
    if (c :: cs).take pat.length == pat then some ([], (c :: cs).drop pat.length)
    else
      match splitFirstL pat cs with
      | none => none
      | some r => some (c :: r.1, r.2)

/-- Everything before the first occurrence of `pat` (the whole of `s` when
`pat` is absent).  Models `s.split(pat)[0]`. -/
def beforeFirst (s pat : String) : String :=
  match splitFirstL pat.data s.data with
  | none => s
  | some r => String.mk r.1

/-- Everything after the first occurrence of `pat`, `none` when absent. -/
def afterFirst (s pat : String) : Option String :=
  match splitFirstL pat.data s.data with
  | none => none
  | some r => some (String.mk r.2)

/-- Models `s.startswith(pre)`. -/
def strStartsWith (s pre : String) : Bool :=
  s.data.take pre.data.length == pre.data

/-- Python's `\s` class (the six ASCII whitespace characters). -/
def isPySpace (c : Char) : Bool :=
  " \t\n\r\x0b\x0c".data.contains c

/-- Python `s.strip()`. -/
def pyStrip (s : String) : String :=
  String.mk (((s.data.dropWhile isPySpace).reverse.dropWhile isPySpace).reverse)

/-- Models `s.replace(c, '')` for a single-character pattern: remove every
occurrence. -/
def removeChar (c : Char) (s : String) : String :=
  String.mk (s.data.filter (fun x => x ≠ c))

/-- The characters after the last `'/'` (the whole list when there is no
slash). -/
def afterLastSlash (l : List Char) : List Char :=
  (l.reverse.takeWhile (fun c => c != '/')).reverse

/-- The final path component of `s`; for a slash-free `s` this is `s`
itself.  Used to model both `os.path.basename` and the last segment of a
joined path. -/
def lastSeg (s : String) : String :=
  String.mk (afterLastSlash s.data)

/-- Models `os.path.basename`. -/
def basename (p : String) : String := lastSeg p

/-- Python `.rstrip('/')`: drop all trailing slashes. -/
def rstripSlash (p : String) : String :=
  String.mk ((p.data.reverse.dropWhile (fun c => c = '/')).reverse)

/-- Models `os.path.join a b` for the shapes the program uses (`b` is taken as a
fresh absolute path when it starts with a slash, mirroring the library). -/
def joinPath (a b : String) : String :=
  if b.data.head? = some '/' then b
  else if a = "" then b
  else if a.data.getLast? = some '/' then a ++ b
  else a ++ "/" ++ b

/-- Structural splitter on a single character; every produced part consists
of characters of the input distinct from the separator. -/
def splitOnCharL (c : Char) : List Char → List (List Char)
  | [] => [[]]
  | a :: as =>
    let r := splitOnCharL c as
    if a = c then [] :: r
    else
      match r with
      | [] => [[a]]
      | h :: t => (a :: h) :: t

/-- Python `s.split(sep)` for a single-character separator (keeps empty
parts, never returns an empty list). -/
def splitOnCharS (c : Char) (s : String) : List String :=
  (splitOnCharL c s.data).map String.mk

/-- Models `os.path.splitext p`: split the final component at its last dot, unless
every character before that dot (inside the component) is itself a dot. -/
def splitext (p : String) : String × String :=
  let base := afterLastSlash p.data
  let dir := p.data.take (p.data.length - base.length)
  let parts := splitOnCharL '.' base
  match parts.reverse with
  | [] => (p, "")
  | [_] => (p, "")
  | last :: restRev =>
    let front := restRev.reverse
    if front.all (fun part => part.isEmpty) then (p, "")
    else
      (String.mk dir ++ String.intercalate "." (front.map String.mk),
       String.mk ('.' :: last))

/-- The `path` component of `urllib.parse.urlparse`, modelled for the URL
shapes the tool receives (absolute `scheme://host/path` URLs, optionally
with query or fragment, and scheme-less strings which parse wholly as
path). -/
def urlparsePath (url : String) : String :=
  let u := beforeFirst (beforeFirst url "#") "?"
  match afterFirst u "://" with
  | none => u
  | some hostpath =>
    match afterFirst hostpath "/" with
    | none => ""
    | some rest => "/" ++ rest

/-- The `scheme://host` part of an absolute URL (helper for `urljoin`). -/
def schemeHost (url : String) : String :=
  match afterFirst url "://" with
  | none => url
  | some hostpath => beforeFirst url "://" ++ "://" ++ beforeFirst hostpath "/"

/-- The part of `base` up to and including the last slash of its path part (helper for
relative resolution in `urljoin`). -/
def baseDir (base : String) : String :=
  let u := beforeFirst (beforeFirst base "#") "?"
  match afterFirst u "://" with
  | none => String.mk (u.data.take (u.data.length - (afterLastSlash u.data).length))
  | some hostpath =>
    match afterFirst hostpath "/" with
    | none => u ++ "/"
    | some rest =>
      let path := "/" ++ rest
      schemeHost base ++ String.mk (path.data.take (path.data.length - (afterLastSlash path.data).length))

/-- Models `requests.compat.urljoin`, modelled for absolute, scheme-relative,
root-relative and plain relative references (dot-segment normalisation of
the external library is not reproduced; the tool never relies on it). -/
def urljoin (base rel : String) : String :=
  if rel = "" then base
  else if strContainsSub rel "://" then rel
  else if strStartsWith rel "//" then beforeFirst base "://" ++ ":" ++ rel
  else if strStartsWith rel "/" then schemeHost base ++ rel
  else baseDir base ++ rel

/-! ## SHA-256 (`hashlib.sha256(...).hexdigest()`), on `Nat` mod 2^32 -/

def w32 (n : Nat) : Nat := n % 4294967296

def rotr (n k : Nat) : Nat := w32 ((n >>> k) ||| (n <<< (32 - k)))

def shaCh (x y z : Nat) : Nat := (x &&& y) ^^^ ((x ^^^ 4294967295) &&& z)

def shaMaj (x y z : Nat) : Nat := (x &&& y) ^^^ (x &&& z) ^^^ (y &&& z)

def bigSigma0 (x : Nat) : Nat := rotr x 2 ^^^ rotr x 13 ^^^ rotr x 22

def bigSigma1 (x : Nat) : Nat := rotr x 6 ^^^ rotr x 11 ^^^ rotr x 25

def smallSigma0 (x : Nat) : Nat := rotr x 7 ^^^ rotr x 18 ^^^ (x >>> 3)

def smallSigma1 (x : Nat) : Nat := rotr x 17 ^^^ rotr x 19 ^^^ (x >>> 10)

def shaK : List Nat :=
  [1116352408, 1899447441, 3049323471, 3921009573, 961987163, 1508970993,
   2453635748, 2870763221, 3624381080, 310598401, 607225278, 1426881987,
   1925078388, 2162078206, 2614888103, 3248222580, 3835390401, 4022224774,
   264347078, 604807628, 770255983, 1249150122, 1555081692, 1996064986,
   2554220882, 2821834349, 2952996808, 3210313671, 3336571891, 3584528711,
   113926993, 338241895, 666307205, 773529912, 1294757372, 1396182291,
   1695183700, 1986661051, 2177026350, 2456956037, 2730485921, 2820302411,
   3259730800, 3345764771, 3516065817, 3600352804, 4094571909, 275423344,
   430227734, 506948616, 659060556, 883997877, 958139571, 1322822218,
   1537002063, 1747873779, 1955562222, 2024104815, 2227730452, 2361852424,
   2428436474, 2756734187, 3204031479, 3329325298]

structure Hash8 where
  a : Nat
  b : Nat
  c : Nat
  d : Nat
  e : Nat
  f : Nat
  g : Nat
  h : Nat

def shaH0 : Hash8 :=
  ⟨1779033703, 3144134277, 1013904242, 2773480762,
   1359893119, 2600822924, 528734635, 1541459225⟩

/-- UTF-8 encoding of one character (`str.encode('utf-8')`). -/
def utf8EncodeChar (c : Char) : List Nat :=
  let n := c.toNat
  if n < 0x80 then [n]
  else if n < 0x800 then
    [0xc0 ||| (n >>> 6), 0x80 ||| (n &&& 0x3f)]
  else if n < 0x10000 then
    [0xe0 ||| (n >>> 12), 0x80 ||| ((n >>> 6) &&& 0x3f), 0x80 ||| (n &&& 0x3f)]
  else
    [0xf0 ||| (n >>> 18), 0x80 ||| ((n >>> 12) &&& 0x3f), 0x80 ||| ((n >>> 6) &&& 0x3f),
     0x80 ||| (n &&& 0x3f)]

def utf8Bytes (s : String) : List Nat :=
  s.data.foldr (fun c acc => utf8EncodeChar c ++ acc) []

/-- Big-endian 8-byte encoding of the bit length. -/
def be64 (n : Nat) : List Nat :=
  (List.range 8).map (fun i => (n >>> (8 * (7 - i))) &&& 255)

def padMessage (msg : List Nat) : List Nat :=
  let len := msg.length
  let padZeros := (119 - len % 64) % 64
  msg ++ [0x80] ++ List.replicate padZeros 0 ++ be64 (8 * len)

def bytesToWords : List Nat → List Nat
  | b0 :: b1 :: b2 :: b3 :: rest =>
    ((b0 <<< 24) ||| (b1 <<< 16) ||| (b2 <<< 8) ||| b3) :: bytesToWords rest
  | _ => []

def wordsToBlocks : List Nat → List (List Nat)
  | w0 :: w1 :: w2 :: w3 :: w4 :: w5 :: w6 :: w7 :: w8 :: w9 :: w10 :: w11 :: w12 :: w13 :: w14 :: w15 :: rest =>
    [w0, w1, w2, w3, w4, w5, w6, w7, w8, w9, w10, w11, w12, w13, w14, w15] :: wordsToBlocks rest
  | _ => []

def scheduleStep (acc : List Nat) (_i : Nat) : List Nat :=
  let t := acc.length
  acc ++ [w32 (smallSigma1 (acc.getD (t - 2) 0) + acc.getD (t - 7) 0 +
               smallSigma0 (acc.getD (t - 15) 0) + acc.getD (t - 16) 0)]

def schedule (ws : List Nat) : List Nat :=
  (List.range 48).foldl scheduleStep ws

def roundStep (st : Hash8) (kw : Nat × Nat) : Hash8 :=
  let t1 := w32 (st.h + bigSigma1 st.e + shaCh st.e st.f st.g + kw.1 + kw.2)
  let t2 := w32 (bigSigma0 st.a + shaMaj st.a st.b st.c)
  ⟨w32 (t1 + t2), st.a, st.b, st.c, w32 (st.d + t1), st.e, st.f, st.g⟩

def compressBlock (st : Hash8) (block : List Nat) : Hash8 :=
  let r := (shaK.zip (schedule block)).foldl roundStep st
  ⟨w32 (st.a + r.a), w32 (st.b + r.b), w32 (st.c + r.c), w32 (st.d + r.d),
   w32 (st.e + r.e), w32 (st.f + r.f), w32 (st.g + r.g), w32 (st.h + r.h)⟩

def sha256words (msg : List Nat) : Hash8 :=
  (wordsToBlocks (bytesToWords (padMessage msg))).foldl compressBlock shaH0

def hexDigit (n : Nat) : Char :=
  match n with
  | 0 => '0' | 1 => '1' | 2 => '2' | 3 => '3' | 4 => '4' | 5 => '5' | 6 => '6' | 7 => '7'
  | 8 => '8' | 9 => '9' | 10 => 'a' | 11 => 'b' | 12 => 'c' | 13 => 'd' | 14 => 'e' | 15 => 'f'
  | _ => '0'

def toHex8 (n : Nat) : String :=
  String.mk ((List.range 8).map (fun i => hexDigit ((n >>> (4 * (7 - i))) &&& 15)))

/-- Models `hashlib.sha256(s.encode('utf-8')).hexdigest()`. -/
def sha256hex (s : String) : String :=
  let r := sha256words (utf8Bytes s)
  toHex8 r.a ++ toHex8 r.b ++ toHex8 r.c ++ toHex8 r.d ++
  toHex8 r.e ++ toHex8 r.f ++ toHex8 r.g ++ toHex8 r.h

/-! ## Filesystem and HTTP collaborators

The Python program talks to the OS and the network through a narrow
interface (read/write/exists/makedirs and `requests.get`).  We model the
filesystem as a map from path strings to file contents plus the list of
created directories, and the HTTP client as a pure function from URL to
(status code, body).  Every operation additionally reports the list of URLs
it actually fetched, and `exit(1)` / uncaught exceptions become an
`Except.error` carrying the diagnostic and the filesystem at that point. -/

structure FS where
  files : String → Option String
  dirs : List String

def FS.write (fs : FS) (p c : String) : FS :=
  ⟨fun q => if q = p then some c else fs.files q, fs.dirs⟩

/-- Models `os.makedirs(d, exist_ok=True)`. -/
def FS.mkdir (fs : FS) (d : String) : FS :=
  ⟨fs.files, if d ∈ fs.dirs then fs.dirs else fs.dirs ++ [d]⟩

abbrev Http := String → Nat × String

/-- Models `compute_image_path` (main.py lines 14-24).  Note line 17: the routine
calls `os.makedirs(os.path.join(root, ".cached"), exist_ok=True)`, a
filesystem side effect, before computing the pure path pair. -/
def compute_image_path (fs : FS) (url_path root : String) : FS × String × String :=
  let fs1 := fs.mkdir (joinPath root ".cached")
  let output_path := urlparsePath url_path
  let ext := (splitext output_path).2
  let image_name := sha256hex url_path ++ ext
  let file_path := joinPath (joinPath root "images") image_name
  (fs1, file_path, image_name)

/-- Models `download_image` (lines 27-45). -/
def download_image (http : Http) (fs : FS) (url_path root : String) :
    Except (String × FS) (String × FS × List String) :=
  let r := compute_image_path fs url_path root
  match r.1.files r.2.1 with
  | some _ => .ok (r.2.2, r.1, [])
  | none =>
    let resp := http url_path
    if resp.1 ≠ 200 then
      .error ("Cannot make request. Result: " ++ toString resp.1, r.1)
    else
      .ok (r.2.2, FS.write r.1 r.2.1 resp.2, [url_path])

/-- Models `load_file_content` (lines 48-66). -/
def load_file_content (http : Http) (fs : FS) (url_path file_path : String) :
    Except (String × FS) (String × FS × List String) :=
  match fs.files file_path with
  | some content => .ok (content, fs, [])
  | none =>
    let resp := http url_path
    if resp.1 ≠ 200 then
      .error ("Cannot make request. Result: " ++ toString resp.1, fs)
    else
      .ok (resp.2, fs.write file_path resp.2, [url_path])

/-! ## The parsed page tree

A BeautifulSoup document is modelled as a tree of elements (tag name,
attributes, children) and text nodes (`NavigableString`s, whose `.name` is
`None`).  A mutual inductive keeps every tree traversal structurally
recursive. -/

mutual
inductive Node where
  | text : String → Node
  | elem : String → List (String × String) → NodeList → Node
inductive NodeList where
  | nil : NodeList
  | cons : Node → NodeList → NodeList
end

def NodeList.append : NodeList → NodeList → NodeList
  | .nil, r => r
  | .cons t ts, r => .cons t (NodeList.append ts r)

instance : Append NodeList := ⟨NodeList.append⟩

def Node.name? : Node → Option String
  | .text _ => none
  | .elem n _ _ => some n

def Node.attrs : Node → List (String × String)
  | .text _ => []
  | .elem _ a _ => a

def Node.children : Node → NodeList
  | .text _ => .nil
  | .elem _ _ cs => cs

def Node.withChildren : Node → NodeList → Node
  | .text s, _ => .text s
  | .elem n a _, cs => .elem n a cs

/-- First match of an association list; models dictionary/attribute lookup
(`tag['k']`, `tag.get('k', default)`, `imgs[key]`). -/
def assocFind : List (String × String) → String → Option String
  | [], _ => none
  | p :: ps, k => if p.1 == k then some p.2 else assocFind ps k

/-- bs4 splits a `class` attribute on whitespace into tokens. -/
def classTokens (v : String) : List String :=
  (splitOnCharS ' ' v).filter (fun t => t ≠ "")

/-- bs4 attribute matching for `find(..., attrs={k: v})`: the `class`
attribute matches when `v` equals one of its tokens or the whole string;
other attributes match by equality. -/
def attrMatches (t : Node) (k v : String) : Bool :=
  match assocFind t.attrs k with
  | none => false
  | some val => if k = "class" then (classTokens val).contains v || val == v else val == v

/-- bs4 `class_=re.compile(pat)` with a literal pattern: the regex searches
inside each class token, i.e. substring containment. -/
def classMatchesRe (t : Node) (pat : String) : Bool :=
  match assocFind t.attrs "class" with
  | none => false
  | some val => (classTokens val).any (fun tok => strContainsSub tok pat)

/-- Predicate for `find(tagName, attrs={...})`. -/
def tagAttrsPred (tagName : String) (attrs : List (String × String)) (t : Node) : Bool :=
  t.name? == some tagName && attrs.all (fun kv => attrMatches t kv.1 kv.2)

mutual
/-- bs4 `.text`: concatenation of all descendant strings. -/
def nodeText : Node → String
  | .text s => s
  | .elem _ _ cs => nodesText cs
def nodesText : NodeList → String
  | .nil => ""
  | .cons t ts => nodeText t ++ nodesText ts
end

mutual
/-- bs4 `.string`: the unique string below a chain of single children,
`None` otherwise. -/
def nodeString : Node → Option String
  | .text s => some s
  | .elem _ _ cs => nodeStringL cs
def nodeStringL : NodeList → Option String
  | .cons c .nil => nodeString c
  | _ => none
end

def attrsRepr (attrs : List (String × String)) : String :=
  String.join (attrs.map (fun kv => " " ++ kv.1 ++ "=" ++ "\"" ++ kv.2 ++ "\""))

mutual
/-- Models `str(tag)`: bs4's HTML serialisation, modelled as plain markup
reconstruction. -/
def nodeRepr : Node → String
  | .text s => s
  | .elem n a cs => "<" ++ n ++ attrsRepr a ++ ">" ++ nodesRepr cs ++ "</" ++ n ++ ">"
def nodesRepr : NodeList → String
  | .nil => ""
  | .cons t ts => nodeRepr t ++ nodesRepr ts
end

/-- Models `tag.prettify()`, modelled as the serialisation plus a final newline. -/
def prettify (t : Node) : String := nodeRepr t ++ "\n"

mutual
/-- bs4 `find`: first matching descendant in document order (the root
itself is not considered). -/
def findFirstOne (p : Node → Bool) : Node → Option Node
  | .text s => if p (.text s) then some (.text s) else none
  | .elem n a cs => if p (.elem n a cs) then some (.elem n a cs) else findFirstL p cs
def findFirstL (p : Node → Bool) : NodeList → Option Node
  | .nil => none
  | .cons t ts =>
    match findFirstOne p t with
    | some r => some r
    | none => findFirstL p ts
end

def findInside (p : Node → Bool) (t : Node) : Option Node :=
  findFirstL p t.children

mutual
/-- Models `remove_tag` (lines 69-73): extract the first matching descendant, if
any.  The Bool reports whether a removal happened. -/
def removeFirstOne (p : Node → Bool) : Node → Node × Bool
  | .text s => (.text s, false)
  | .elem n a cs =>
    let r := removeFirstL p cs
    (.elem n a r.1, r.2)
def removeFirstL (p : Node → Bool) : NodeList → NodeList × Bool
  | .nil => (.nil, false)
  | .cons t ts =>
    if p t then (ts, true)
    else
      let r := removeFirstOne p t
      if r.2 then (.cons r.1 ts, true)
      else
        let rs := removeFirstL p ts
        (.cons t rs.1, rs.2)
end

def remove_tag (site : Node) (tagName : String) (attrs : List (String × String)) : Node :=
  (removeFirstOne (tagAttrsPred tagName attrs) site).1

mutual
/-- Models `tag.unwrap()` applied to the first matching descendant: splice its
children into the parent.  The Bool reports whether a match was found. -/
def unwrapFirstOne (p : Node → Bool) : Node → Node × Bool
  | .text s => (.text s, false)
  | .elem n a cs =>
    let r := unwrapFirstL p cs
    (.elem n a r.1, r.2)
def unwrapFirstL (p : Node → Bool) : NodeList → NodeList × Bool
  | .nil => (.nil, false)
  | .cons t ts =>
    if p t then (t.children ++ ts, true)
    else
      let r := unwrapFirstOne p t
      if r.2 then (.cons r.1 ts, true)
      else
        let rs := unwrapFirstL p ts
        (.cons t rs.1, rs.2)
end

/-! ## Renderer (lines 75-168) -/

inductive RendererKind where
  | base
  | untools
deriving DecidableEq

/-- Python `f"...{x}..."` formatting of a possibly-`None` value. -/
def pyStr : Option String → String
  | none => "None"
  | some s => s

/-! ### `render_tag_pre` (lines 120-138)

The handler scans `tag.text` with the regex
`^\[code\s+lang=(?P<lang>.*)\](?P<content>.*)\[\/code\]$` under
`re.MULTILINE | re.DOTALL` and writes one `[source, lang]` block per match.
The matcher below reproduces the regex semantics: a match may start only at
a line start, `\s+` requires at least one whitespace character, both groups
are greedy (the `]` closing the lang group is the last feasible one, then
`[/code]` is the last occurrence followed by a line end), and `finditer`
resumes scanning at the end of the previous match. -/

def strAtPos (l : List Char) (i : Nat) (pat : List Char) : Bool :=
  (l.drop i).take pat.length == pat

def lineStartAt (l : List Char) (i : Nat) : Bool :=
  i == 0 || l.getD (i - 1) ' ' == '\n'

def lineEndAt (l : List Char) (i : Nat) : Bool :=
  i == l.length || l.getD i ' ' == '\n'

def codeEndOk (l : List Char) (r : Nat) : Bool :=
  strAtPos l r "[/code]".data && lineEndAt l (r + 7)

def matchCodeAt (l : List Char) (i : Nat) : Option (String × String × Nat) :=
  if strAtPos l i "[code".data then
    let ws := ((l.drop (i + 5)).takeWhile isPySpace).length
    if ws == 0 then none
    else if strAtPos l (i + 5 + ws) "lang=".data then
      let m := i + 5 + ws + 5
      let ends := (List.range (l.length + 1)).filter (fun r => codeEndOk l r)
      let qs := (List.range l.length).filter
        (fun q => m ≤ q && l.getD q ' ' == ']' && ends.any (fun r => q + 1 ≤ r))
      match qs.getLast? with
      | none => none
      | some q =>
        match (ends.filter (fun r => q + 1 ≤ r)).getLast? with
        | none => none
        | some r =>
          some (String.mk ((l.drop m).take (q - m)),
                String.mk ((l.drop (q + 1)).take (r - (q + 1))), r + 7)
    else none
  else none

def findCodeFrom (l : List Char) : Nat → Nat → List (String × String)
  | _, 0 => []
  | i, fuel + 1 =>
    let hit := ((List.range (l.length + 1)).filter
      (fun j => i ≤ j && lineStartAt l j)).findSome?
      (fun j => (matchCodeAt l j).map (fun m => (j, m)))
    match hit with
    | none => []
    | some (_, lang, content, stop) => (lang, content) :: findCodeFrom l stop fuel

/-- Models `re.finditer(code_pattern, text, re.MULTILINE | re.DOTALL)` as a list of
(lang, content) groups. -/
def findCodeMatches (text : String) : List (String × String) :=
  findCodeFrom text.data 0 (text.data.length + 1)

/-- Models `render_tag_pre` body on `tag.text`.  `re.finditer` always returns an
iterator object — never `None` — so the Python guard `if matches is None:`
(line 132) can never be taken; the value is modelled as `some` of the match
list to keep both branches of the source visible. -/
def render_tag_pre_text (text : String) : String :=
  let matchIter : Option (List (String × String)) := some (findCodeMatches text)
  let sourceBlocks :=
    match matchIter with
    | some ms =>
      String.join (ms.map (fun m => "[source, " ++ m.1 ++ "]\n----\n" ++ m.2 ++ "\n----\n"))
    | none => ""
  let listing :=
    match matchIter with
    | none => "[listing]\n....\n" ++ text ++ "\n....\n\n"
    | some _ => ""
  sourceBlocks ++ listing

/-- The keys of the `handlers` dispatch dictionary (lines 141-154). -/
def handlersKeys : List String :=
  ["p", "h1", "h2", "h3", "h4", "ul", "ol", "div", "blockquote", "figure", "table", "pre"]

/-- Models `render_tag_ul` / `render_tag_ol` item lines: children whose tag name is
not `li` are skipped. -/
def liLines (marker : String) : NodeList → String
  | .nil => ""
  | .cons t ts =>
    (if t.name? == some "li" then marker ++ nodeText t ++ "\n" else "") ++ liLines marker ts

mutual
/-- One dispatch step of `render_tags` for an element child.  Returns the
pair (markup written to the output file, text printed to stdout — the
diagnostic channel used for unknown tags). -/
def renderOne (rk : RendererKind) : Node → String × String
  | .text _ => ("", "")
  | .elem n a cs =>
    if n = "p" then (nodesText cs ++ "\n\n", "")
    else if n = "h1" then ("=== " ++ pyStr (nodeStringL cs) ++ "\n\n", "")
    else if n = "h2" then ("=== " ++ pyStr (nodeStringL cs) ++ "\n\n", "")
    else if n = "h3" then ("==== " ++ pyStr (nodeStringL cs) ++ "\n\n", "")
    else if n = "h4" then ("===== " ++ pyStr (nodeStringL cs) ++ "\n\n", "")
    else if n = "ul" then (liLines "- " cs ++ "\n\n", "")
    else if n = "ol" then (liLines "* " cs ++ "\n\n", "")
    else if n = "div" then
      match rk with
      | .base => render_tags rk cs
      | .untools => (nodesText cs ++ "\n\n", "")
    else if n = "blockquote" then
      let inner := render_tags rk cs
      ("[quote]\n____\n" ++ inner.1 ++ "____\n", inner.2)
    else if n = "figure" then (nodesText cs ++ "\n\n", "")
    else if n = "table" then ("++++\n" ++ prettify (.elem n a cs) ++ "++++\n", "")
    else if n = "pre" then (render_tag_pre_text (nodesText cs), "")
    else ("", "=============\n" ++ nodeRepr (.elem n a cs) ++ "\n")
/-- Models `render_tags` (lines 140-162): iterate over the children, skipping
text nodes (`tag.name is None`), dispatching known tags and printing the
raw representation of unknown ones. -/
def render_tags (rk : RendererKind) : NodeList → String × String
  | .nil => ("", "")
  | .cons (.text _) ts => render_tags rk ts
  | .cons (.elem n a cs) ts =>
    let here := renderOne rk (.elem n a cs)
    let rest := render_tags rk ts
    (here.1 ++ rest.1, here.2 ++ rest.2)
end

/-! ## Transformer (lines 171-253) -/

inductive TransformerKind where
  | base
  | untools
deriving DecidableEq

mutual
/-- Models `transform_strong` / `transform_italic` (lines 177-185): replace each
element whose name is in `names` by a text node wrapping its `.text`. -/
def transformEmphOne (names : List String) (l r : String) : Node → Node
  | .text s => .text s
  | .elem n a cs =>
    if names.contains n then .text (l ++ nodesText cs ++ r)
    else .elem n a (transformEmphL names l r cs)
def transformEmphL (names : List String) (l r : String) : NodeList → NodeList
  | .nil => .nil
  | .cons t ts => .cons (transformEmphOne names l r t) (transformEmphL names l r ts)
end

def transform_strong (cs : NodeList) : NodeList :=
  transformEmphL ["strong", "b"] "**" "**" cs

def transform_italic (cs : NodeList) : NodeList :=
  transformEmphL ["italic", "i", "em"] "__" "__" cs

mutual
/-- Models `transform_a` (lines 187-191): replace every hyperlink by
`link:<href>[<text>]`; `a['href']` raises a `KeyError` when absent. -/
def transformAOne : Node → Except String Node
  | .text s => .ok (.text s)
  | .elem n a cs =>
    if n = "a" then
      match assocFind a "href" with
      | none => .error "KeyError: href"
      | some href => .ok (.text ("link:" ++ href ++ "[" ++ nodesText cs ++ "]"))
    else
      match transformAL cs with
      | .error e => .error e
      | .ok cs2 => .ok (.elem n a cs2)
def transformAL : NodeList → Except String NodeList
  | .nil => .ok .nil
  | .cons t ts =>
    match transformAOne t with
    | .error e => .error e
    | .ok t2 =>
      match transformAL ts with
      | .error e => .error e
      | .ok ts2 => .ok (.cons t2 ts2)
end

/-- Python dict insertion `imgs[k] = v`: overwrite the value of an existing
key in place, else append. -/
def dictInsert (d : List (String × String)) (k v : String) : List (String × String) :=
  if d.any (fun p => p.1 == k) then d.map (fun p => if p.1 == k then (k, v) else p)
  else d ++ [(k, v)]

/-- One iteration of the loop on lines 203-205: strip the candidate, split
on a single space and store `imgs[ss[1]] = ss[0]`; `ss[1]` raises an
`IndexError` when the candidate has no second token. -/
def srcsetStep (imgs : List (String × String)) (s : String) :
    Except String (List (String × String)) :=
  match splitOnCharS ' ' (pyStrip s) with
  | [] => .error "IndexError: list index out of range"
  | [_] => .error "IndexError: list index out of range"
  | u :: d :: _ => .ok (dictInsert imgs d u)

/-- Lines 201-205: split the srcset on commas and run the candidate loop. -/
def buildSrcsetDict (srcset : String) : Except String (List (String × String)) :=
  (splitOnCharS ',' srcset).foldlM srcsetStep []

/-- Lexicographic comparison of character lists by code point — the
ordering Python's `sorted` uses on strings. -/
def strLeListB : List Char → List Char → Bool
  | [], _ => true
  | _ :: _, [] => false
  | a :: as, b :: bs =>
    if a.toNat < b.toNat then true
    else if a.toNat = b.toNat then strLeListB as bs
    else false

/-- Plain (lexicographic, code-point) string order. -/
def strLeB (a b : String) : Bool := strLeListB a.data b.data

/-- Python `sorted` on strings (ascending lexicographic order on code
points), realised as insertion sort. -/
def insertSorted (a : String) : List String → List String
  | [] => [a]
  | b :: bs => if strLeB a b then a :: b :: bs else b :: insertSorted a bs

def pySorted : List String → List String
  | [] => []
  | x :: xs => insertSorted x (pySorted xs)

/-- Models `sorted(imgs.keys())[0]` (line 206). -/
def srcsetChosenKey (imgs : List (String × String)) : String :=
  (pySorted (imgs.map Prod.fst)).headD ""

/-- Lines 200-211: pick `sorted(imgs.keys())[0]` as the "largest" candidate
and override width/height from the descriptor when it contains `w` / `h`. -/
def srcsetSelect (srcset width height : String) : Except String (String × String × String) :=
  match buildSrcsetDict srcset with
  | .error e => .error e
  | .ok imgs =>
    match pySorted (imgs.map Prod.fst) with
    | [] => .error "IndexError: list index out of range"
    | largest :: _ =>
      match assocFind imgs largest with
      | none => .error "KeyError"
      | some src =>
        .ok (src,
             if strContains largest 'w' then removeChar 'w' largest else width,
             if strContains largest 'h' then removeChar 'h' largest else height)

/-- The body of the `transform_img` loop (lines 194-215) for one `img`
element: `alt` and `src` are mandatory subscripts, `height`, `width` and
`srcset` use `.get` with defaults. -/
def transform_img_one (http : Http) (src_url output_dir : String)
    (a : List (String × String)) (fs : FS) :
    Except (String × FS) (String × FS × List String) :=
  match assocFind a "alt" with
  | none => .error ("KeyError: alt", fs)
  | some alt =>
    let height := (assocFind a "height").getD ""
    let width := (assocFind a "width").getD ""
    match assocFind a "src" with
    | none => .error ("KeyError: src", fs)
    | some src =>
      let sel :=
        match assocFind a "srcset" with
        | none => Except.ok (src, width, height)
        | some srcset => srcsetSelect srcset width height
      match sel with
      | .error e => .error (e, fs)
      | .ok (src2, width2, height2) =>
        let url_path := urljoin src_url src2
        match download_image http fs url_path output_dir with
        | .error e => .error e
        | .ok (image_name, fs2, rq) =>
          .ok ("image:" ++ image_name ++ "[" ++ alt ++ "," ++ width2 ++ "," ++ height2 ++ "]",
               fs2, rq)

mutual
/-- Models `transform_img` (lines 193-215) as a document-order traversal replacing
every `img` element by its substitution text, threading the filesystem and
the request log. -/
def transformImgOne (http : Http) (src_url output_dir : String) :
    Node → FS → Except (String × FS) (Node × FS × List String)
  | .text s, fs => .ok (.text s, fs, [])
  | .elem n a cs, fs =>
    if n = "img" then
      match transform_img_one http src_url output_dir a fs with
      | .error e => .error e
      | .ok (repl, fs1, rq) => .ok (.text repl, fs1, rq)
    else
      match transformImgL http src_url output_dir cs fs with
      | .error e => .error e
      | .ok (cs2, fs1, rq) => .ok (.elem n a cs2, fs1, rq)
def transformImgL (http : Http) (src_url output_dir : String) :
    NodeList → FS → Except (String × FS) (NodeList × FS × List String)
  | .nil, fs => .ok (.nil, fs, [])
  | .cons t ts, fs =>
    match transformImgOne http src_url output_dir t fs with
    | .error e => .error e
    | .ok (t2, fs1, rq1) =>
      match transformImgL http src_url output_dir ts fs1 with
      | .error e => .error e
      | .ok (ts2, fs2, rq2) => .ok (.cons t2 ts2, fs2, rq1 ++ rq2)
end

/-- Models `transform_sources` (lines 241-243): unwrap the first
`div.article-module--sources--*`; when `find` yields `None` the call
`source.unwrap()` raises. -/
def transform_sources (cs : NodeList) : Option NodeList :=
  let r := unwrapFirstL
    (fun t => t.name? == some "div" && classMatchesRe t "article-module--sources--") cs
  if r.2 then some r.1 else none

/-- Models `Transformer.transform` (lines 217-221) and
`UntoolsTransformer.transform` (lines 245-252): strong, italic, img, a, and
for the untools variant additionally the sources unwrap (the `h2`/`h3`
passes are commented out in the source). -/
def transform (tk : TransformerKind) (http : Http) (src_url output_dir : String)
    (content : Node) (fs : FS) : Except (String × FS) (Node × FS × List String) :=
  let cs1 := transform_italic (transform_strong content.children)
  match transformImgL http src_url output_dir cs1 fs with
  | .error e => .error e
  | .ok (cs2, fs1, rq) =>
    match transformAL cs2 with
    | .error e => .error (e, fs1)
    | .ok cs3 =>
      match tk with
      | .base => .ok (content.withChildren cs3, fs1, rq)
      | .untools =>
        match transform_sources cs3 with
        | none => .error ("AttributeError: NoneType object has no attribute unwrap", fs1)
        | some cs4 => .ok (content.withChildren cs4, fs1, rq)

/-! ## Extractor (lines 255-328) -/

inductive ExtractorKind where
  | untools
  | unintended
  | morningPaper
  | generic
deriving DecidableEq

/-- Models `get_published` (lines 264-270), shared by all variants. -/
def extractor_get_published (bs : Node) : Option String :=
  match findInside (tagAttrsPred "time" [("class", "entry-date published")]) bs with
  | some t => some (nodeText t)
  | none => none

/-- Models `get_title`.  The base class method body is `pass` (lines 261-262): it
returns `None` without any lookup.  The site variants locate their heading
and dereference it, raising when `find` yields `None`. -/
def extractor_get_title (k : ExtractorKind) (bs : Node) : Except String (Option String) :=
  match k with
  | .generic => .ok none
  | .untools =>
    match findInside (fun t => t.name? == some "div" && classMatchesRe t "article-module--top--") bs with
    | none => .error "AttributeError: NoneType object has no attribute find"
    | some header =>
      match findInside (fun t => t.name? == some "h2") header with
      | none => .error "AttributeError: NoneType object has no attribute text"
      | some h => .ok (some (nodeText h))
  | .unintended =>
    match findInside (fun t => t.name? == some "h1") bs with
    | none => .error "AttributeError: NoneType object has no attribute text"
    | some h => .ok (some (nodeText h))
  | .morningPaper =>
    match findInside (fun t => t.name? == some "h1" && attrMatches t "class" "entry-title") bs with
    | none => .error "AttributeError: NoneType object has no attribute text"
    | some h => .ok (some (nodeText h))

/-- Models `get_metadata` (lines 272-273 default, 296-302 untools). -/
def extractor_get_metadata (k : ExtractorKind) (bs : Node) : Except String String :=
  match k with
  | .untools =>
    match findInside (fun t => t.name? == some "div" && classMatchesRe t "article-module--top--") bs with
    | none => .error "AttributeError: NoneType object has no attribute find"
    | some header =>
      match findInside (fun t => t.name? == some "span" && classMatchesRe t "tag-module--tag--") header with
      | none => .error "AttributeError: NoneType object has no attribute text"
      | some tagEl =>
        match findInside (fun t => t.name? == some "div" && classMatchesRe t "article-module--when-useful--") header with
        | none => .error "AttributeError: NoneType object has no attribute text"
        | some usage =>
          .ok ("." ++ nodeText tagEl ++ "\n****\n" ++ nodeText usage ++ "\n****\n\n")
  | _ => .ok ""

/-- The fixed removals of `Extractor.cleanup` (lines 275-283). -/
def baseCleanupRemovals (site : Node) : Node :=
  let s1 := remove_tag site "div" [("class", "site-branding")]
  let s2 := remove_tag s1 "div" [("class", "navigation-top")]
  let s3 := remove_tag s2 "footer" [("class", "site-footer")]
  let s4 := remove_tag s3 "div" [("class", "searchsettings")]
  let s5 := remove_tag s4 "section" [("id", "ajaxsearchlitewidget-2")]
  let s6 := remove_tag s5 "aside" [("id", "secondary")]
  let s7 := remove_tag s6 "nav" [("class", "post-navigation")]
  remove_tag s7 "header" [("id", "masthead")]

/-- Models `cleanup`.  The base `Extractor` never assigns `self.site`, so for the
generic variant `remove_tag(None, ...)` dereferences `None` and the run
dies; each site variant first narrows `site` to its container and raises
likewise when the container is absent. -/
def extractor_cleanup (k : ExtractorKind) (bs : Node) : Except String Node :=
  match k with
  | .generic => .error "AttributeError: NoneType object has no attribute find"
  | .untools =>
    match findInside (fun t => classMatchesRe t "article-module--content--") bs with
    | none => .error "AttributeError: NoneType object has no attribute find"
    | some site => .ok (baseCleanupRemovals site)
  | .unintended =>
    match findInside (fun t => attrMatches t "id" "page") bs with
    | none => .error "AttributeError: NoneType object has no attribute find"
    | some site => .ok (baseCleanupRemovals site)
  | .morningPaper =>
    match findInside (fun t => t.name? == some "div" && attrMatches t "class" "entry-content") bs with
    | none => .error "AttributeError: NoneType object has no attribute find"
    | some site => .ok (baseCleanupRemovals site)

/-- Models `get_content` (lines 285-286 default, 317-318 unintended).  When the
unintended variant's `find` yields `None` the transformer's subsequent
`find_all` on it raises, modelled as the error here. -/
def extractor_get_content (k : ExtractorKind) (site : Node) : Except String Node :=
  match k with
  | .unintended =>
    match findInside (fun t => attrMatches t "class" "entry-content") site with
    | none => .error "AttributeError: NoneType object has no attribute find_all"
    | some c => .ok c
  | _ => .ok site

/-! ## Strategy selection (lines 331-362) -/

def create_extractor (url_path : String) : ExtractorKind :=
  if strContainsSub url_path "untools.co" then .untools
  else if strContainsSub url_path "unintendedconsequenc" then .unintended
  else if strContainsSub url_path "blog.acolyer.org" then .morningPaper
  else .generic

def create_transformer (url_path : String) : TransformerKind :=
  if strContainsSub url_path "untools.co" then .untools
  else if strContainsSub url_path "unintendedconsequenc" then .base
  else if strContainsSub url_path "blog.acolyer.org" then .base
  else .base

def create_renderer (url_path : String) : RendererKind :=
  if strContainsSub url_path "untools.co" then .untools
  else if strContainsSub url_path "unintendedconsequenc" then .base
  else if strContainsSub url_path "blog.acolyer.org" then .base
  else .base

/-! ## Document assembly (lines 365-467) -/

/-- The title line `f'== {extractor.get_title()}\n\n'` (line 381); a `None`
title formats as the string `None`. -/
def titleLine (t : Option String) : String := "== " ++ pyStr t ++ "\n\n"

/-- Models `download_content` (lines 365-396), parameterised over the HTTP client
and the external HTML parser (`BeautifulSoup`).  The output file is opened
with mode `'w'` in the source and filled incrementally; here the bytes are
assembled and committed in one write, which coincides with the source for
every run that does not die midway.  The returned artifact is the pair
(output path, bytes written). -/
def download_content (http : Http) (parse : String → Node) (fs : FS)
    (url_path root : String) :
    Except (String × FS) ((String × String) × FS × List String) :=
  let file_path := joinPath (joinPath root ".cached") (sha256hex url_path ++ ".html")
  let slug := basename (rstripSlash (urlparsePath url_path))
  let outDir := joinPath root slug
  let fs0 := fs.mkdir outDir
  let output_path := joinPath outDir "index.asciidoc"
  match load_file_content http fs0 url_path file_path with
  | .error e => .error e
  | .ok (content, fs1, rq1) =>
    let bs := parse content
    let ek := create_extractor url_path
    match extractor_get_title ek bs with
    | .error e => .error (e, fs1)
    | .ok title =>
      let published_info :=
        match extractor_get_published bs with
        | some t => "published on " ++ t
        | none => ""
      match extractor_get_metadata ek bs with
      | .error e => .error (e, fs1)
      | .ok md =>
        let article_metadata :=
          "link:" ++ url_path ++ "[original article] " ++ published_info ++ "\n\n" ++ md
        match extractor_cleanup ek bs with
        | .error e => .error (e, fs1)
        | .ok site =>
          match extractor_get_content ek site with
          | .error e => .error (e, fs1)
          | .ok contentNode =>
            match transform (create_transformer url_path) http url_path root contentNode fs1 with
            | .error e => .error e
            | .ok (contentNode2, fs2, rq2) =>
              let rendered := render_tags (create_renderer url_path) contentNode2.children
              let bytes := titleLine title ++ article_metadata ++ rendered.1
              .ok ((output_path, bytes), fs2.write output_path bytes, rq1 ++ rq2)

/-- Models `generate_makefile` template (lines 419-429). -/
def makefileTemplate : String :=
  "html:\n\tasciidoctor index.asciidoc -d book -b html5 -D output\n\tcp -r images output/\n\nepub:\n\tasciidoctor-epub3 index.asciidoc -d book -D output\n"

/-- Models `re.sub(f'^\x7broot\x7d/', '', output_path)` (line 453) for a root
without regex metacharacters: strip the `root/` prefix. -/
def stripRootPrefix (root output_path : String) : String :=
  if strStartsWith output_path (root ++ "/") then output_path.drop (root.length + 1)
  else output_path

structure Cfg where
  title : String
  author : String
  version : String
  homepage : String
  output_dir : String
  urls : List String

/-- The per-URL loop of `main` (lines 450-454), returning the artifacts
(output path, bytes), the relative include paths, the final filesystem and
the request log. -/
def processUrls (http : Http) (parse : String → Node) (root : String) :
    List String → FS →
    Except (String × FS) (List (String × String) × List String × FS × List String)
  | [], fs => .ok ([], [], fs, [])
  | u :: us, fs =>
    match download_content http parse fs u root with
    | .error e => .error e
    | .ok ((opath, bytes), fs1, rq1) =>
      match processUrls http parse root us fs1 with
      | .error e => .error e
      | .ok (arts, rels, fs2, rq2) =>
        .ok ((opath, bytes) :: arts, stripRootPrefix root opath :: rels, fs2, rq1 ++ rq2)

/-- The master index document (lines 456-465). -/
def indexContent (cfg : Cfg) (rels : List String) : String :=
  "= " ++ cfg.title ++ "\n" ++ cfg.author ++ "\n" ++ cfg.version ++
  "\n:toc:\n:imagesdir: images\n:homepage: " ++ cfg.homepage ++ "\n\n" ++
  String.intercalate "\n" (rels.map (fun x => "include::" ++ x ++ "[]")) ++ "\n"

structure MainRes where
  fs : FS
  reqs : List String
  arts : List (String × String)

/-- Models `main` (lines 432-467) on an existing configuration: create the cache
directories, write the Makefile, process every URL in order, then write the
master index.  The artifact list collects every per-URL output file plus
the index file with the bytes written to each. -/
def mainRun (http : Http) (parse : String → Node) (cfg : Cfg) (fs : FS) :
    Except (String × FS) MainRes :=
  let root := cfg.output_dir
  let fsA := (fs.mkdir (joinPath root ".cached")).mkdir (joinPath root "images")
  let fsB := fsA.write (joinPath root "Makefile") makefileTemplate
  match processUrls http parse root cfg.urls fsB with
  | .error e => .error e
  | .ok (arts, rels, fs1, reqs) =>
    let idxPath := joinPath root "index.asciidoc"
    let idx := indexContent cfg rels
    .ok ⟨fs1.write idxPath idx, reqs, arts ++ [(idxPath, idx)]⟩

def okFS (r : Except (String × FS) MainRes) : FS :=
  match r with
  | .ok m => m.fs
  | .error e => e.2

def okReqs (r : Except (String × FS) MainRes) : List String :=
  match r with
  | .ok m => m.reqs
  | .error _ => []

def okArts (r : Except (String × FS) MainRes) : List (String × String) :=
  match r with
  | .ok m => m.arts
  | .error _ => []

/-- The Site Strategy Triple selected for a URL (lines 331-362). -/
def stratTriple (url : String) : ExtractorKind × TransformerKind × RendererKind :=
  (create_extractor url, create_transformer url, create_renderer url)

/-! ## Concrete fixtures used by witnesses and counterexamples -/

def emptyFS : FS := ⟨fun _ => none, []⟩

/-- A minimal page for the unintendedconsequences layout: a heading, the
`page` container and an `entry-content` body with one paragraph. -/
def wTree : Node :=
  .elem "html" []
    (.cons (.elem "h1" [] (.cons (.text "T") .nil))
    (.cons (.elem "div" [("id", "page")]
      (.cons (.elem "div" [("class", "entry-content")]
        (.cons (.elem "p" [] (.cons (.text "hello") .nil)) .nil)) .nil))
    .nil))

def wUrl : String := "http://unintendedconsequenc.example/post/a"

def wHttp : Http := fun u => if u = wUrl then (200, "PAGE") else (404, "")

def wParse : String → Node := fun _ => wTree

def wCfg : Cfg := ⟨"Tt", "Au", "v1", "hp", "out", [wUrl]⟩

/-- A filesystem holding exactly the cached image for
`http://u.test/a.png` under root `out`. -/
def imgCacheFS : FS :=
  ⟨fun p => if p = "out/images/69f62e50b4f3f1009e8dfaf89f898f426e3cb148cc192744028c436e1afffdf9.png"
            then some "IMG" else none, []⟩

/-- A page with no heading element at all. -/
def pageNoHeading : Node :=
  .elem "html" [] (.cons (.elem "p" [] (.cons (.text "x") .nil)) .nil)


/-! ## Path abbreviations and write-discipline predicates (for the
idempotence development) -/

/-- The cache file path `download_content` uses for a page (line 368). -/
def pageCachePathOf (url root : String) : String :=
  joinPath (joinPath root ".cached") (sha256hex url ++ ".html")

/-- The image cache name and path `compute_image_path` derives. -/
def imageNameOf (url : String) : String :=
  sha256hex url ++ (splitext (urlparsePath url)).2

def imagePathOf (url root : String) : String :=
  joinPath (joinPath root "images") (imageNameOf url)

/-- The paths a run overwrites unconditionally: the Makefile, the master
index, and the per-URL output files (whose slug component is slash-free,
being a basename). -/
def OutPath (root p : String) : Prop :=
  p = joinPath root "Makefile" ∨ p = joinPath root "index.asciidoc" ∨
  ∃ s, (∀ c ∈ s.data, c ≠ '/') ∧ p = joinPath (joinPath root s) "index.asciidoc"

/-- Predicate stating that `g` carries every file of `fs` except possibly the unconditionally
rewritten output paths.  This is the invariant the second run maintains:
every cache read of the first run is still answered identically. -/
def CacheSup (root : String) (fs g : FS) : Prop :=
  ∀ p c, fs.files p = some c → OutPath root p ∨ g.files p = some c

/-! # Theorems -/

/-! ## Path shape lemmas -/

theorem hexDigit_ne_slash (n : Nat) : hexDigit n ≠ '/' := by
  unfold hexDigit
  split <;> decide

theorem toHex8_data (n : Nat) :
    (toHex8 n).data = (List.range 8).map (fun i => hexDigit ((n >>> (4 * (7 - i))) &&& 15)) := rfl

theorem toHex8_length (n : Nat) : (toHex8 n).length = 8 := rfl

theorem noSlash_toHex8 (n : Nat) : ∀ c ∈ (toHex8 n).data, c ≠ '/' := by
  intro c hc
  rw [toHex8_data] at hc
  obtain ⟨i, -, rfl⟩ := List.mem_map.mp hc
  exact hexDigit_ne_slash _

theorem noSlash_sha256hex (s : String) : ∀ c ∈ (sha256hex s).data, c ≠ '/' := by
  intro c hc
  simp only [sha256hex, String.data_append, List.mem_append] at hc
  rcases hc with ((((((h | h) | h) | h) | h) | h) | h) | h <;> exact noSlash_toHex8 _ _ h

theorem sha256hex_length (s : String) : (sha256hex s).length = 64 := by
  simp [sha256hex, String.length_append, toHex8_length]

theorem sha256hex_data_ne_nil (s : String) : (sha256hex s).data ≠ [] := by
  intro h
  have h2 := sha256hex_length s
  rw [show (sha256hex s).length = (sha256hex s).data.length from rfl, h] at h2
  exact absurd h2 (by decide)

theorem append_head_ne_slash (s b : String)
    (hne : s.data ≠ []) (hns : ∀ c ∈ s.data, c ≠ '/') :
    (s ++ b).data.head? ≠ some '/' := by
  rw [String.data_append]
  cases hd : s.data with
  | nil => exact absurd hd hne
  | cons x xs =>
    intro hx
    simp only [List.cons_append, List.head?_cons, Option.some.injEq] at hx
    exact hns x (by rw [hd]; exact List.mem_cons_self x xs) hx

theorem joinPath_plain (a b : String) (h1 : a ≠ "") (h2 : a.data.getLast? ≠ some '/')
    (h3 : b.data.head? ≠ some '/') : joinPath a b = a ++ "/" ++ b := by
  simp [joinPath, h1, h2, h3]

/-! ## SHA-256 test vectors -/

theorem sha256hex_test_vector_empty :
    sha256hex "" = "e3b0c44298fc1c149afbf4c8996fb92427ae41e4649b934ca495991b7852b855" := by
  decide

theorem sha256hex_test_vector_abc :
    sha256hex "abc" = "ba7816bf8f01cfea414140de5dae2223b00361a396177a9cb410ff61f20015ad" := by
  decide

/-! ## C2: the pre/code handler -/

/-- C2: on the spec's round-trip input `render_tag_pre` emits the
`[source, python]` fenced block, but on a pre block whose text has no
`[code]` wrapper it emits nothing at all: `re.finditer` always returns an
iterator object, never `None`, so the `[listing]` fallback (lines 132-138)
is unreachable and the block's text is silently dropped — the second half
of the claim describes the intended, not the actual, behaviour. -/
theorem render_tag_pre_code_block_and_dead_listing :
    renderOne .base (.elem "pre" [] (.cons (.text "[code lang=python]print(1)[/code]") .nil)) =
      ("[source, python]\n----\nprint(1)\n----\n", "") ∧
    renderOne .base (.elem "pre" [] (.cons (.text "plain text") .nil)) = ("", "") := by
  constructor <;> decide

/-! ## C4: compute_image_path -/

/-- C4 counterexample: `compute_image_path` is not I/O-free.  Called on an
empty filesystem it creates the `out/.cached` directory (line 17), so the
filesystem it returns differs from the one it was given. -/
theorem compute_image_path_performs_io :
    (compute_image_path emptyFS "http://x.test/dir/img.png" "out").1 ≠ emptyFS := by
  intro h
  exact absurd (congrArg FS.dirs h) (by decide)

/-- C4 amended: the returned (path, name) pair is a pure function of URL and
root — independent of the filesystem state, hence identical across calls —
and has the claimed shape `root + "/images/" + hex(SHA-256(url)) + ext`
with `ext` the extension of the URL's path component; but the routine also
performs one filesystem side effect, creating `root/.cached`. -/
theorem compute_image_path_value_pure (fs1 fs2 : FS) (url root : String)
    (h1 : root ≠ "") (h2 : root.data.getLast? ≠ some '/') :
    (compute_image_path fs1 url root).2 = (compute_image_path fs2 url root).2 ∧
    (compute_image_path fs1 url root).2 =
      (root ++ "/images/" ++ (sha256hex url ++ (splitext (urlparsePath url)).2),
       sha256hex url ++ (splitext (urlparsePath url)).2) ∧
    (compute_image_path fs1 url root).1 = fs1.mkdir (joinPath root ".cached") := by
  refine ⟨rfl, ?_, rfl⟩
  have hhead : (sha256hex url ++ (splitext (urlparsePath url)).2).data.head? ≠ some '/' :=
    append_head_ne_slash _ _ (sha256hex_data_ne_nil url) (noSlash_sha256hex url)
  have hj1 : joinPath root "images" = root ++ "/" ++ "images" :=
    joinPath_plain root "images" h1 h2 (by decide)
  have hne : root ++ "/" ++ "images" ≠ "" := by
    intro h
    have h2 := congrArg String.data h
    simp [String.data_append] at h2
  have hlast : (root ++ "/" ++ "images").data.getLast? ≠ some '/' := by
    rw [String.data_append, String.data_append, List.append_assoc]
    rw [List.getLast?_append_of_ne_nil _ (by decide : ("/".data ++ "images".data) ≠ [])]
    decide
  have hj2 : joinPath (root ++ "/" ++ "images")
      (sha256hex url ++ (splitext (urlparsePath url)).2) =
      root ++ "/" ++ "images" ++ "/" ++ (sha256hex url ++ (splitext (urlparsePath url)).2) :=
    joinPath_plain _ _ hne hlast hhead
  show (joinPath (joinPath root "images") _, _) = _
  rw [hj1, hj2]
  rw [show root ++ "/" ++ "images" ++ "/" = root ++ "/images/" by
    rw [String.append_assoc, String.append_assoc]
    rfl]

/-- C4 witness for the amended theorem at a concrete root and URL. -/
theorem compute_image_path_value_pure_witness :
    (compute_image_path emptyFS "http://x.test/dir/img.png" "out").2 =
      ("out/images/9779e104774a22382b1a5a44180b7e20c332e6615b55a0d31c8eb996d9cd59ce.png",
       "9779e104774a22382b1a5a44180b7e20c332e6615b55a0d31c8eb996d9cd59ce.png") := by
  have h := compute_image_path_value_pure emptyFS emptyFS "http://x.test/dir/img.png" "out"
    (by decide) (by decide)
  rw [h.2.1]
  decide


/-! ## C9: the generic Extractor's get_title -/

/-- C9 counterexample: on a page with no heading element the generic
Extractor's `get_title` does not fail with a lookup error — the base method
body is `pass` (lines 261-262), so it returns the successful value `None`
(and does so having performed no lookup at all). -/
theorem generic_get_title_succeeds_counterexample :
    create_extractor "http://example.test/a" = .generic ∧
    extractor_get_title .generic pageNoHeading = .ok none ∧
    (extractor_get_title .generic pageNoHeading).isOk = true := by
  refine ⟨by decide, rfl, rfl⟩

/-- C9 amended: for a URL matching no known site identifier the generic
Extractor's `get_title` performs no lookup and returns `None` successfully
on every page (heading or not); the assembled document's title line then
reads `== None`. -/
theorem generic_get_title_returns_none (url : String) (bs : Node)
    (h1 : strContainsSub url "untools.co" = false)
    (h2 : strContainsSub url "unintendedconsequenc" = false)
    (h3 : strContainsSub url "blog.acolyer.org" = false) :
    extractor_get_title (create_extractor url) bs = .ok none ∧
    titleLine none = "== None\n\n" := by
  constructor
  · simp [create_extractor, h1, h2, h3, extractor_get_title]
  · rfl

/-- C9 witness for the amended theorem. -/
theorem generic_get_title_returns_none_witness :
    extractor_get_title (create_extractor "http://example.test/a") pageNoHeading = .ok none ∧
    titleLine none = "== None\n\n" :=
  generic_get_title_returns_none "http://example.test/a" pageNoHeading
    (by decide) (by decide) (by decide)

/-! ## C8: site strategy selection -/

/-- C8: the Site Strategy Triple is selected by substring match against the
ordered identifier list, first match wins, and a URL matching no identifier
gets the generic triple (generic Extractor, base Transformer, base
Renderer). -/
theorem site_strategy_selection (url : String) :
    (strContainsSub url "untools.co" = true →
      stratTriple url = (.untools, .untools, .untools)) ∧
    (strContainsSub url "untools.co" = false →
      strContainsSub url "unintendedconsequenc" = true →
      stratTriple url = (.unintended, .base, .base)) ∧
    (strContainsSub url "untools.co" = false →
      strContainsSub url "unintendedconsequenc" = false →
      strContainsSub url "blog.acolyer.org" = true →
      stratTriple url = (.morningPaper, .base, .base)) ∧
    (strContainsSub url "untools.co" = false →
      strContainsSub url "unintendedconsequenc" = false →
      strContainsSub url "blog.acolyer.org" = false →
      stratTriple url = (.generic, .base, .base)) := by
  refine ⟨fun h1 => ?_, fun h1 h2 => ?_, fun h1 h2 h3 => ?_, fun h1 h2 h3 => ?_⟩
  · simp [stratTriple, create_extractor, create_transformer, create_renderer, h1]
  · simp [stratTriple, create_extractor, create_transformer, create_renderer, h1, h2]
  · simp [stratTriple, create_extractor, create_transformer, create_renderer, h1, h2, h3]
  · simp [stratTriple, create_extractor, create_transformer, create_renderer, h1, h2, h3]

/-- C8 witness: one URL for each selection branch, including a URL carrying
two identifiers where the first match wins. -/
theorem site_strategy_selection_witness :
    stratTriple "https://untools.co/x?see=blog.acolyer.org" = (.untools, .untools, .untools) ∧
    stratTriple "https://unintendedconsequenc.es/p" = (.unintended, .base, .base) ∧
    stratTriple "https://blog.acolyer.org/p" = (.morningPaper, .base, .base) ∧
    stratTriple "https://example.com/p" = (.generic, .base, .base) :=
  ⟨(site_strategy_selection _).1 (by decide),
   (site_strategy_selection _).2.1 (by decide) (by decide),
   (site_strategy_selection _).2.2.1 (by decide) (by decide) (by decide),
   (site_strategy_selection _).2.2.2 (by decide) (by decide) (by decide)⟩

/-! ## C5: non-200 responses are fatal -/

/-- C5: on a cache miss, a non-200 response makes both the page fetch and
the image fetch terminate the run at once with the diagnostic message — and
no cache file is written (the filesystem's files are unchanged at exit);
a 200 response succeeds and processing continues. -/
theorem fetch_non200_fatal (http : Http) (fs : FS) (url fp root : String) :
    (fs.files fp = none → (http url).1 ≠ 200 →
      load_file_content http fs url fp =
        .error ("Cannot make request. Result: " ++ toString (http url).1, fs)) ∧
    (fs.files fp = none → (http url).1 = 200 →
      load_file_content http fs url fp = .ok ((http url).2, fs.write fp (http url).2, [url])) ∧
    ((compute_image_path fs url root).1.files (compute_image_path fs url root).2.1 = none →
      (http url).1 ≠ 200 →
      download_image http fs url root =
        .error ("Cannot make request. Result: " ++ toString (http url).1,
                (compute_image_path fs url root).1) ∧
      ((compute_image_path fs url root).1).files = fs.files) ∧
    ((compute_image_path fs url root).1.files (compute_image_path fs url root).2.1 = none →
      (http url).1 = 200 →
      download_image http fs url root =
        .ok ((compute_image_path fs url root).2.2,
             FS.write (compute_image_path fs url root).1 (compute_image_path fs url root).2.1
               (http url).2,
             [url])) := by
  refine ⟨fun hm hs => ?_, fun hm hs => ?_, fun hm hs => ⟨?_, rfl⟩, fun hm hs => ?_⟩
  · simp [load_file_content, hm, hs]
  · simp [load_file_content, hm, hs]
  · simp [download_image, hm, hs]
  · simp [download_image, hm, hs]

/-- C5 witness: a 404 page fetch and a 404 image fetch are fatal with the
diagnostic; a 200 page fetch succeeds. -/
theorem fetch_non200_fatal_witness :
    load_file_content (fun _ => (404, "x")) emptyFS "http://u.test/a" "p" =
      .error ("Cannot make request. Result: 404", emptyFS) ∧
    download_image (fun _ => (404, "x")) emptyFS "http://u.test/a.png" "out" =
      .error ("Cannot make request. Result: 404",
              (compute_image_path emptyFS "http://u.test/a.png" "out").1) ∧
    load_file_content wHttp emptyFS wUrl "p" = .ok ("PAGE", emptyFS.write "p" "PAGE", [wUrl]) :=
  ⟨(fetch_non200_fatal (fun _ => (404, "x")) emptyFS "http://u.test/a" "p" "out").1 rfl
      (by decide),
   ((fetch_non200_fatal (fun _ => (404, "x")) emptyFS "http://u.test/a.png" "p" "out").2.2.1
      rfl (by decide)).1,
   (fetch_non200_fatal wHttp emptyFS wUrl "p" "out").2.1 rfl (by decide)⟩

/-! ## C3: the cache is authoritative -/

/-- C3: a cached page file is returned verbatim with no network request and
no filesystem change; a cached image yields its name with no fetch; a page
or image cache miss answered 200 persists the body to the cache file and
returns it; and immediately re-running either call on the updated
filesystem consults only the cache (the request log stays empty). -/
theorem cache_no_refetch (http : Http) (fs : FS) (url fp root c : String) :
    (fs.files fp = some c → load_file_content http fs url fp = .ok (c, fs, [])) ∧
    (∀ x, (compute_image_path fs url root).1.files (compute_image_path fs url root).2.1 = some x →
      download_image http fs url root =
        .ok ((compute_image_path fs url root).2.2, (compute_image_path fs url root).1, [])) ∧
    (fs.files fp = none → http url = (200, c) →
      load_file_content http fs url fp = .ok (c, fs.write fp c, [url]) ∧
      (fs.write fp c).files fp = some c ∧
      load_file_content http (fs.write fp c) url fp = .ok (c, fs.write fp c, [])) := by
  refine ⟨fun hc => ?_, fun x hc => ?_, fun hm hh => ⟨?_, by simp [FS.write], ?_⟩⟩
  · simp [load_file_content, hc]
  · simp [download_image, hc]
  · simp [load_file_content, hm, hh]
  · simp [load_file_content, FS.write]

/-- C3 witness: a concrete cache hit for a page and for an image, and a
concrete miss that persists the 200 body before returning it. -/
theorem cache_no_refetch_witness :
    load_file_content wHttp ⟨fun p => if p = "f" then some "C" else none, []⟩ wUrl "f" =
      .ok ("C", ⟨fun p => if p = "f" then some "C" else none, []⟩, []) ∧
    download_image wHttp imgCacheFS "http://u.test/a.png" "out" =
      .ok ((compute_image_path imgCacheFS "http://u.test/a.png" "out").2.2,
           (compute_image_path imgCacheFS "http://u.test/a.png" "out").1, []) ∧
    load_file_content wHttp emptyFS wUrl "f" = .ok ("PAGE", emptyFS.write "f" "PAGE", [wUrl]) ∧
    load_file_content wHttp (emptyFS.write "f" "PAGE") wUrl "f" =
      .ok ("PAGE", emptyFS.write "f" "PAGE", []) :=
  ⟨(cache_no_refetch wHttp ⟨fun p => if p = "f" then some "C" else none, []⟩ wUrl "f" "out" "C").1
      rfl,
   (cache_no_refetch wHttp imgCacheFS "http://u.test/a.png" "f" "out" "C").2.1 "IMG" (by decide),
   ((cache_no_refetch wHttp emptyFS wUrl "f" "out" "PAGE").2.2 rfl (by decide)).1,
   ((cache_no_refetch wHttp emptyFS wUrl "f" "out" "PAGE").2.2 rfl (by decide)).2.2⟩


/-! ## C10: alt and src are mandatory in the image pass -/

/-- C10: for one `img` element, `transform_img` raises a key-lookup error
when `alt` is absent, and (with `alt` present) when `src` is absent;
`width`, `height` and `srcset` are optional and default to the empty
string / absent; every successful substitution has the shape
`image:<name>[<alt>,<width>,<height>]` with the element's own alt text, and
with only `alt` and `src` present (and the image already cached) the
emitted width and height are empty. -/
theorem transform_img_mandatory_attrs (http : Http) (fs : FS) (su root : String)
    (a : List (String × String)) :
    (assocFind a "alt" = none →
      transform_img_one http su root a fs = .error ("KeyError: alt", fs)) ∧
    (∀ alt, assocFind a "alt" = some alt → assocFind a "src" = none →
      transform_img_one http su root a fs = .error ("KeyError: src", fs)) ∧
    (∀ alt repl fs2 rq, assocFind a "alt" = some alt →
      transform_img_one http su root a fs = .ok (repl, fs2, rq) →
      ∃ nm w h, repl = "image:" ++ nm ++ "[" ++ alt ++ "," ++ w ++ "," ++ h ++ "]") ∧
    (∀ alt src x, assocFind a "alt" = some alt → assocFind a "src" = some src →
      assocFind a "srcset" = none → assocFind a "width" = none → assocFind a "height" = none →
      (compute_image_path fs (urljoin su src) root).1.files
        (compute_image_path fs (urljoin su src) root).2.1 = some x →
      transform_img_one http su root a fs =
        .ok ("image:" ++ (compute_image_path fs (urljoin su src) root).2.2 ++
               "[" ++ alt ++ ",,]",
             (compute_image_path fs (urljoin su src) root).1, [])) := by
  refine ⟨fun h => ?_, fun alt h1 h2 => ?_, fun alt repl fs2 rq h1 h2 => ?_,
          fun alt src x h1 h2 h3 h4 h5 h6 => ?_⟩
  · simp [transform_img_one, h]
  · simp [transform_img_one, h1, h2]
  · revert h2
    simp only [transform_img_one, h1]
    cases hsrc : assocFind a "src" with
    | none => simp
    | some src =>
      simp only
      cases hsel : (match assocFind a "srcset" with
        | none => Except.ok (src, (assocFind a "width").getD "", (assocFind a "height").getD "")
        | some srcset =>
            srcsetSelect srcset ((assocFind a "width").getD "") ((assocFind a "height").getD "")) with
      | error e => simp
      | ok t =>
        obtain ⟨s2, w2, h2'⟩ := t
        simp only
        cases hdl : download_image http fs (urljoin su s2) root with
        | error e => simp
        | ok r =>
          obtain ⟨nm, fs3, rq3⟩ := r
          simp only [Except.ok.injEq, Prod.mk.injEq]
          rintro ⟨rfl, -, -⟩
          exact ⟨nm, w2, h2', by simp [String.append_assoc]⟩
  · simp [transform_img_one, h1, h2, h3, h4, h5, download_image, h6]
    rw [show ∀ s : String, s ++ "," ++ "," ++ "]" = s ++ ",,]" from fun s => by
      rw [String.append_assoc, String.append_assoc]
      exact congrArg (fun t => s ++ t) (by decide)]

/-- C10 witness: a missing alt errors, a missing src errors, and a complete
minimal element (alt and src only, image cached) succeeds with empty width
and height and the element's alt text. -/
theorem transform_img_mandatory_attrs_witness :
    transform_img_one wHttp "http://u.test/p" "out" [("src", "a.png")] emptyFS =
      .error ("KeyError: alt", emptyFS) ∧
    transform_img_one wHttp "http://u.test/p" "out" [("alt", "A")] emptyFS =
      .error ("KeyError: src", emptyFS) ∧
    transform_img_one wHttp "http://u.test/p" "out" [("alt", "A"), ("src", "a.png")] imgCacheFS =
      .ok ("image:" ++
             (compute_image_path imgCacheFS "http://u.test/a.png" "out").2.2 ++ "[A,,]",
           (compute_image_path imgCacheFS "http://u.test/a.png" "out").1, []) := by
  refine ⟨(transform_img_mandatory_attrs wHttp emptyFS "http://u.test/p" "out"
            [("src", "a.png")]).1 (by decide),
          (transform_img_mandatory_attrs wHttp emptyFS "http://u.test/p" "out"
            [("alt", "A")]).2.1 "A" (by decide) (by decide), ?_⟩
  have h := (transform_img_mandatory_attrs wHttp imgCacheFS "http://u.test/p" "out"
    [("alt", "A"), ("src", "a.png")]).2.2.2 "A" "a.png" "IMG"
    (by decide) (by decide) (by decide) (by decide) (by decide) (by decide)
  have hu : urljoin "http://u.test/p" "a.png" = "http://u.test/a.png" := by decide
  rw [hu] at h
  exact h

/-! ## C6: unknown tags are diagnosed, not rendered, and do not abort -/

/-- C6: a child whose tag name is not in the dispatch table contributes no
markup — only its raw representation on the diagnostic channel — while the
remaining children are still rendered; a text-only child (tag name `None`)
is skipped entirely; and a registered paragraph child renders its text
followed by a blank line regardless of what precedes it. -/
theorem render_tags_unknown_tag_safe (u : String) (ua : List (String × String))
    (ucs rest pcs : NodeList) (s : String) (pa : List (String × String))
    (h : u ∉ handlersKeys) :
    render_tags .base (.cons (.elem u ua ucs) rest) =
      ((render_tags .base rest).1,
       ("=============\n" ++ nodeRepr (.elem u ua ucs) ++ "\n") ++
         (render_tags .base rest).2) ∧
    render_tags .base (.cons (.text s) rest) = render_tags .base rest ∧
    render_tags .base (.cons (.elem "p" pa pcs) rest) =
      ((nodesText pcs ++ "\n\n") ++ (render_tags .base rest).1,
       (render_tags .base rest).2) := by
  simp only [handlersKeys, List.mem_cons, List.mem_singleton, not_or] at h
  obtain ⟨h1, h2, h3, h4, h5, h6, h7, h8, h9, h10, h11, h12⟩ := h
  refine ⟨?_, rfl, ?_⟩
  · simp [render_tags, renderOne, h1, h2, h3, h4, h5, h6, h7, h8, h9, h10, h11, h12]
  · simp [render_tags, renderOne]

/-- C6 witness: a never-registered tag next to a valid paragraph — the
paragraph text still renders, the unknown tag is only diagnosed. -/
theorem render_tags_unknown_tag_safe_witness :
    render_tags .base
      (.cons (.elem "custom" [("x", "1")] (.cons (.text "zzz") .nil))
      (.cons (.elem "p" [] (.cons (.text "hello") .nil)) .nil)) =
      ("hello\n\n", "=============\n<custom x=\"1\">zzz</custom>\n") := by
  have h := (render_tags_unknown_tag_safe "custom" [("x", "1")]
    (.cons (.text "zzz") .nil)
    (.cons (.elem "p" [] (.cons (.text "hello") .nil)) .nil)
    .nil "" [] (by decide)).1
  rw [h]
  decide


/-! ## C1: the responsive-source selection is a lexicographic minimum -/

theorem strLeListB_refl : ∀ l : List Char, strLeListB l l = true := by
  intro l
  induction l with
  | nil => rfl
  | cons a as ih => simp [strLeListB, ih]

theorem strLeListB_total : ∀ l1 l2 : List Char,
    strLeListB l1 l2 = false → strLeListB l2 l1 = true := by
  intro l1
  induction l1 with
  | nil => intro l2 h; exact absurd h (by simp [strLeListB])
  | cons a as ih =>
    intro l2 h
    cases l2 with
    | nil => rfl
    | cons b bs =>
      simp only [strLeListB] at h ⊢
      by_cases hab : a.toNat < b.toNat
      · rw [if_pos hab] at h; exact absurd h (by simp)
      · rw [if_neg hab] at h
        by_cases heq : a.toNat = b.toNat
        · rw [if_pos heq] at h
          rw [if_neg (by omega), if_pos heq.symm]
          exact ih bs h
        · rw [if_pos (by omega)]

theorem strLeListB_trans : ∀ l1 l2 l3 : List Char,
    strLeListB l1 l2 = true → strLeListB l2 l3 = true → strLeListB l1 l3 = true := by
  intro l1
  induction l1 with
  | nil => intro l2 l3 _ _; rfl
  | cons a as ih =>
    intro l2 l3 h1 h2
    cases l2 with
    | nil => exact absurd h1 (by simp [strLeListB])
    | cons b bs =>
      cases l3 with
      | nil => exact absurd h2 (by simp [strLeListB])
      | cons c cs =>
        simp only [strLeListB] at h1 h2 ⊢
        by_cases hab : a.toNat < b.toNat <;> by_cases hbc : b.toNat < c.toNat
        · rw [if_pos (by omega)]
        · rw [if_neg hbc] at h2
          by_cases hbc2 : b.toNat = c.toNat
          · rw [if_pos (by omega)]
          · rw [if_neg hbc2] at h2; exact absurd h2 (by simp)
        · rw [if_neg hab] at h1
          by_cases hab2 : a.toNat = b.toNat
          · rw [if_pos (by omega)]
          · rw [if_neg hab2] at h1; exact absurd h1 (by simp)
        · rw [if_neg hab] at h1
          rw [if_neg hbc] at h2
          by_cases hab2 : a.toNat = b.toNat
          · by_cases hbc2 : b.toNat = c.toNat
            · rw [if_pos hab2] at h1
              rw [if_pos hbc2] at h2
              rw [if_neg (by omega), if_pos (by omega)]
              exact ih bs cs h1 h2
            · rw [if_neg hbc2] at h2; exact absurd h2 (by simp)
          · rw [if_neg hab2] at h1; exact absurd h1 (by simp)

theorem strLeB_refl (a : String) : strLeB a a = true := strLeListB_refl a.data

theorem strLeB_total {a b : String} (h : strLeB a b = false) : strLeB b a = true :=
  strLeListB_total a.data b.data h

theorem strLeB_trans {a b c : String} (h1 : strLeB a b = true) (h2 : strLeB b c = true) :
    strLeB a c = true :=
  strLeListB_trans a.data b.data c.data h1 h2

theorem mem_insertSorted {x a : String} :
    ∀ {l : List String}, x ∈ insertSorted a l ↔ x = a ∨ x ∈ l := by
  intro l
  induction l with
  | nil => simp [insertSorted]
  | cons b bs ih =>
    cases hab : strLeB a b <;>
      simp only [insertSorted, hab, Bool.false_eq_true, if_false, if_true,
        List.mem_cons, ih]
    all_goals tauto

theorem insertSorted_ne_nil (a : String) (l : List String) : insertSorted a l ≠ [] := by
  cases l with
  | nil => simp [insertSorted]
  | cons b bs => cases hab : strLeB a b <;> simp [insertSorted, hab]

theorem pySorted_ne_nil : ∀ {l : List String}, l ≠ [] → pySorted l ≠ [] := by
  intro l h
  cases l with
  | nil => exact absurd rfl h
  | cons x xs => exact insertSorted_ne_nil x (pySorted xs)

theorem mem_pySorted {x : String} : ∀ {l : List String}, x ∈ pySorted l ↔ x ∈ l := by
  intro l
  induction l with
  | nil => simp [pySorted]
  | cons b bs ih => simp [pySorted, mem_insertSorted, ih]

theorem insertSorted_headD_min (a : String) (l : List String)
    (hl : ∀ x ∈ l, strLeB (l.headD "") x = true) :
    ∀ x ∈ insertSorted a l, strLeB ((insertSorted a l).headD "") x = true := by
  cases l with
  | nil =>
    intro x hx
    simp only [insertSorted, List.mem_singleton] at hx
    subst hx
    simpa [insertSorted] using strLeB_refl x
  | cons b bs =>
    intro x hx
    cases hab : strLeB a b
    · rw [insertSorted, hab] at hx
      simp only [Bool.false_eq_true, if_false] at hx
      simp only [insertSorted, hab, Bool.false_eq_true, if_false, List.headD_cons]
      rcases List.mem_cons.mp hx with rfl | hx2
      · exact strLeB_refl x
      · rcases mem_insertSorted.mp hx2 with rfl | hx3
        · exact strLeB_total hab
        · simpa using hl x (List.mem_cons_of_mem b hx3)
    · rw [insertSorted, hab] at hx
      simp only [if_true] at hx
      simp only [insertSorted, hab, if_true, List.headD_cons]
      rcases List.mem_cons.mp hx with rfl | hx2
      · exact strLeB_refl x
      · rcases List.mem_cons.mp hx2 with rfl | hx3
        · exact hab
        · exact strLeB_trans hab (by simpa using hl x (List.mem_cons_of_mem b hx3))

theorem pySorted_headD_min :
    ∀ (l : List String), ∀ x ∈ pySorted l, strLeB ((pySorted l).headD "") x = true := by
  intro l
  induction l with
  | nil => simp [pySorted]
  | cons b bs ih => exact insertSorted_headD_min b (pySorted bs) ih

theorem dictInsert_ne_nil (d : List (String × String)) (k v : String) :
    dictInsert d k v ≠ [] := by
  by_cases h : d.any (fun p => p.1 == k)
  · cases d with
    | nil => simp at h
    | cons p ps => simp [dictInsert, h]
  · simp [dictInsert, h]

theorem srcsetStep_ne_nil {imgs r : List (String × String)} {s : String}
    (h : srcsetStep imgs s = .ok r) : r ≠ [] := by
  revert h
  unfold srcsetStep
  cases splitOnCharS ' ' (pyStrip s) with
  | nil => intro h; exact Except.noConfusion h
  | cons u t =>
    cases t with
    | nil => intro h; exact Except.noConfusion h
    | cons d rest =>
      intro h
      rw [← Except.ok.inj h]
      exact dictInsert_ne_nil imgs d u

theorem foldlM_srcsetStep_ne_nil :
    ∀ (parts : List String) (acc r : List (String × String)),
      parts.foldlM srcsetStep acc = .ok r → (acc ≠ [] ∨ parts ≠ []) → r ≠ [] := by
  intro parts
  induction parts with
  | nil =>
    intro acc r h hor
    simp only [List.foldlM_nil] at h
    cases hor with
    | inl ha => rw [← Except.ok.inj h]; exact ha
    | inr hp => exact absurd rfl hp
  | cons p ps ih =>
    intro acc r h hor
    rw [List.foldlM_cons] at h
    cases hs : srcsetStep acc p with
    | error e =>
      rw [hs] at h
      exact Except.noConfusion h
    | ok acc2 =>
      rw [hs] at h
      exact ih acc2 r h (Or.inl (srcsetStep_ne_nil hs))

theorem splitOnCharL_ne_nil (c : Char) : ∀ (l : List Char), splitOnCharL c l ≠ [] := by
  intro l
  induction l with
  | nil => simp [splitOnCharL]
  | cons a as ih =>
    by_cases hac : a = c
    · simp [splitOnCharL, hac]
    · simp only [splitOnCharL, if_neg hac]
      cases hr : splitOnCharL c as with
      | nil => simp
      | cons x xs => simp

theorem buildSrcsetDict_ne_nil {srcset : String} {imgs : List (String × String)}
    (h : buildSrcsetDict srcset = .ok imgs) : imgs ≠ [] := by
  refine foldlM_srcsetStep_ne_nil _ _ _ h (Or.inr ?_)
  simp only [splitOnCharS, ne_eq, List.map_eq_nil_iff]
  exact splitOnCharL_ne_nil ',' _

theorem assocFind_some_of_mem_keys :
    ∀ {d : List (String × String)} {k : String},
      k ∈ d.map Prod.fst → ∃ v, assocFind d k = some v := by
  intro d
  induction d with
  | nil => intro k h; simp at h
  | cons p ps ih =>
    intro k h
    by_cases hk : p.1 == k
    · exact ⟨p.2, by simp [assocFind, hk]⟩
    · have h2 : k ∈ ps.map Prod.fst := by
        rcases List.mem_cons.mp h with h3 | h3
        · exact absurd (by simp [h3]) hk
        · exact h3
      obtain ⟨v, hv⟩ := ih h2
      exact ⟨v, by simp [assocFind, hk, hv]⟩

/-- C1: whenever the srcset parses (lines 201-205 produce the candidate
dictionary `imgs`), the descriptor the image pass selects —
`srcsetChosenKey imgs`, i.e. `sorted(imgs.keys())[0]` — is a key of the
dictionary that precedes every candidate descriptor in plain lexicographic
(code-point) string order `strLeB`, and `srcsetSelect` (the srcset branch
of `Transformer.transform_img`, lines 200-211) returns that candidate's
URL, overriding the width with the descriptor minus its `w` characters
when it contains a `w`, and the height likewise for `h`. -/
theorem transform_img_srcset_lex_min (srcset w h : String) (imgs : List (String × String))
    (hp : buildSrcsetDict srcset = .ok imgs) :
    srcsetChosenKey imgs ∈ imgs.map Prod.fst ∧
    (∀ k ∈ imgs.map Prod.fst, strLeB (srcsetChosenKey imgs) k = true) ∧
    srcsetSelect srcset w h =
      .ok ((assocFind imgs (srcsetChosenKey imgs)).getD "",
           (if strContains (srcsetChosenKey imgs) 'w'
            then removeChar 'w' (srcsetChosenKey imgs) else w),
           (if strContains (srcsetChosenKey imgs) 'h'
            then removeChar 'h' (srcsetChosenKey imgs) else h)) := by
  have hne : imgs.map Prod.fst ≠ [] := by
    simp only [ne_eq, List.map_eq_nil_iff]
    exact buildSrcsetDict_ne_nil hp
  have hsne : pySorted (imgs.map Prod.fst) ≠ [] := pySorted_ne_nil hne
  cases hsort : pySorted (imgs.map Prod.fst) with
  | nil => exact absurd hsort hsne
  | cons d t =>
    have hd : srcsetChosenKey imgs = d := by simp [srcsetChosenKey, hsort]
    have hdmem : d ∈ imgs.map Prod.fst := by
      have hmem : d ∈ pySorted (imgs.map Prod.fst) := by
        rw [hsort]; exact List.mem_cons_self d t
      exact mem_pySorted.mp hmem
    have hmin : ∀ k ∈ imgs.map Prod.fst, strLeB d k = true := by
      intro k hk
      have h2 := pySorted_headD_min (imgs.map Prod.fst) k (mem_pySorted.mpr hk)
      rwa [hsort, List.headD_cons] at h2
    obtain ⟨v, hv⟩ := assocFind_some_of_mem_keys hdmem
    refine ⟨hd ▸ hdmem, fun k hk => hd ▸ hmin k hk, ?_⟩
    rw [hd]
    simp only [srcsetSelect, hp, hsort, hv, Option.getD_some]

/-- C1 witness: descriptors 320w/640w/1024w — the string-smallest
descriptor `"1024w"` wins (the literal, non-numeric ordering), its URL is
selected and the width override is `1024`. -/
theorem transform_img_srcset_lex_min_witness :
    srcsetSelect "a.png 320w, b.png 640w, c.png 1024w" "w0" "h0" =
      .ok ("c.png", "1024", "h0") ∧
    srcsetChosenKey [("320w", "a.png"), ("640w", "b.png"), ("1024w", "c.png")] = "1024w" ∧
    (∀ k ∈ [("320w", "a.png"), ("640w", "b.png"), ("1024w", "c.png")].map Prod.fst,
      strLeB "1024w" k = true) := by
  have h := transform_img_srcset_lex_min "a.png 320w, b.png 640w, c.png 1024w" "w0" "h0"
    [("320w", "a.png"), ("640w", "b.png"), ("1024w", "c.png")] rfl
  refine ⟨?_, by decide, by decide⟩
  rw [h.2.2]
  decide


/-! ## C7: idempotence of the full pipeline -/

/-! ### Last segments of joined paths -/

theorem takeWhile_eq_self_of_all {p : Char → Bool} :
    ∀ {l : List Char}, (∀ x ∈ l, p x = true) → l.takeWhile p = l := by
  intro l
  induction l with
  | nil => intro _; rfl
  | cons a as ih =>
    intro h
    rw [List.takeWhile_cons, if_pos (h a (List.mem_cons_self a as))]
    rw [ih (fun x hx => h x (List.mem_cons_of_mem a hx))]

theorem takeWhile_append_of_all {p : Char → Bool} :
    ∀ {l1 l2 : List Char}, (∀ x ∈ l1, p x = true) →
      (l1 ++ l2).takeWhile p = l1 ++ l2.takeWhile p := by
  intro l1
  induction l1 with
  | nil => intro l2 _; rfl
  | cons a as ih =>
    intro l2 h
    rw [List.cons_append, List.takeWhile_cons, if_pos (h a (List.mem_cons_self a as))]
    rw [ih (fun x hx => h x (List.mem_cons_of_mem a hx)), List.cons_append]

theorem mem_of_mem_takeWhile {p : Char → Bool} :
    ∀ {l : List Char} {x : Char}, x ∈ l.takeWhile p → p x = true := by
  intro l
  induction l with
  | nil => intro x hx; exact absurd hx (by simp)
  | cons a as ih =>
    intro x hx
    rw [List.takeWhile_cons] at hx
    by_cases ha : p a
    · rw [if_pos ha] at hx
      rcases List.mem_cons.mp hx with rfl | hx2
      · exact ha
      · exact ih hx2
    · rw [if_neg ha] at hx
      exact absurd hx (by simp)

theorem noSlash_afterLastSlash (l : List Char) : ∀ c ∈ afterLastSlash l, c ≠ '/' := by
  intro c hc
  unfold afterLastSlash at hc
  rw [List.mem_reverse] at hc
  have h2 := mem_of_mem_takeWhile hc
  simpa using h2

theorem noSlash_basename (p : String) : ∀ c ∈ (basename p).data, c ≠ '/' := by
  intro c hc
  exact noSlash_afterLastSlash p.data c hc

theorem noSlash_append {s t : String} (hs : ∀ c ∈ s.data, c ≠ '/')
    (ht : ∀ c ∈ t.data, c ≠ '/') : ∀ c ∈ (s ++ t).data, c ≠ '/' := by
  intro c hc
  rw [String.data_append] at hc
  rcases List.mem_append.mp hc with h | h
  · exact hs c h
  · exact ht c h

theorem afterLastSlash_append_slash (l1 l2 : List Char) (h : ∀ c ∈ l2, c ≠ '/') :
    afterLastSlash (l1 ++ '/' :: l2) = l2 := by
  unfold afterLastSlash
  rw [List.reverse_append, List.reverse_cons]
  rw [List.append_assoc]
  rw [takeWhile_append_of_all (fun x hx => by
    simpa using h x (List.mem_reverse.mp hx))]
  simp

theorem lastSeg_noSlash (s : String) (h : ∀ c ∈ s.data, c ≠ '/') : lastSeg s = s := by
  unfold lastSeg afterLastSlash
  rw [takeWhile_eq_self_of_all (fun x hx => by
    simpa using h x (List.mem_reverse.mp hx))]
  rw [List.reverse_reverse]

theorem lastSeg_joinPath (a b : String) (hb : ∀ c ∈ b.data, c ≠ '/') :
    lastSeg (joinPath a b) = b := by
  unfold joinPath
  by_cases h1 : b.data.head? = some '/'
  · exfalso
    cases hb2 : b.data with
    | nil => rw [hb2] at h1; exact Option.noConfusion h1
    | cons x xs =>
      rw [hb2] at h1
      have hx : x = '/' := by simpa using h1
      exact hb x (by rw [hb2]; exact List.mem_cons_self x xs) hx
  · rw [if_neg h1]
    by_cases h2 : a = ""
    · rw [if_pos h2]
      exact lastSeg_noSlash b hb
    · rw [if_neg h2]
      by_cases h3 : a.data.getLast? = some '/'
      · rw [if_pos h3]
        obtain ⟨t, ht⟩ := List.getLast?_eq_some_iff.mp h3
        unfold lastSeg
        rw [String.data_append, ht]
        rw [show t ++ ['/'] ++ b.data = t ++ '/' :: b.data by simp]
        rw [afterLastSlash_append_slash _ _ hb]
      · rw [if_neg h3]
        unfold lastSeg
        rw [String.data_append, String.data_append]
        rw [show a.data ++ "/".data ++ b.data = a.data ++ '/' :: b.data by simp]
        rw [afterLastSlash_append_slash _ _ hb]

/-! ### Extension and slug characters -/

theorem splitOnCharL_chars (c : Char) :
    ∀ (l : List Char), ∀ part ∈ splitOnCharL c l, ∀ x ∈ part, x ∈ l := by
  intro l
  induction l with
  | nil =>
    intro part hp x hx
    simp only [splitOnCharL, List.mem_singleton] at hp
    rw [hp] at hx
    exact absurd hx (by simp)
  | cons a as ih =>
    intro part hp x hx
    by_cases hac : a = c
    · rw [splitOnCharL, if_pos hac] at hp
      rcases List.mem_cons.mp hp with rfl | hp2
      · exact absurd hx (by simp)
      · exact List.mem_cons_of_mem a (ih part hp2 x hx)
    · rw [splitOnCharL, if_neg hac] at hp
      cases hr : splitOnCharL c as with
      | nil => exact absurd hr (splitOnCharL_ne_nil c as)
      | cons h t =>
        rw [hr] at hp
        simp only at hp
        rcases List.mem_cons.mp hp with rfl | hp2
        · rcases List.mem_cons.mp hx with rfl | hx2
          · exact List.mem_cons_self x as
          · refine List.mem_cons_of_mem a (ih h ?_ x hx2)
            rw [hr]
            exact List.mem_cons_self h t
        · refine List.mem_cons_of_mem a (ih part ?_ x hx)
          rw [hr]
          exact List.mem_cons_of_mem h hp2

theorem noSlash_splitext_ext (p : String) : ∀ c ∈ (splitext p).2.data, c ≠ '/' := by
  intro c hc
  simp only [splitext] at hc
  rcases hrev : (splitOnCharL '.' (afterLastSlash p.data)).reverse with _ | ⟨last, restRev⟩
  · rw [hrev] at hc
    exact absurd hc (by simp)
  · rw [hrev] at hc
    cases restRev with
    | nil =>
      simp only at hc
      exact absurd hc (by simp)
    | cons r2 rest2 =>
      simp only at hc
      by_cases hall : ((r2 :: rest2).reverse.all (fun part => part.isEmpty)) = true
      · rw [if_pos hall] at hc
        exact absurd hc (by simp)
      · rw [if_neg hall] at hc
        simp only [String.data] at hc
        rcases List.mem_cons.mp hc with rfl | hc2
        · decide
        · have hmem : last ∈ splitOnCharL '.' (afterLastSlash p.data) := by
            rw [← List.mem_reverse, hrev]
            exact List.mem_cons_self last (r2 :: rest2)
          have hx := splitOnCharL_chars '.' (afterLastSlash p.data) last hmem c hc2
          exact noSlash_afterLastSlash p.data c hx

theorem noSlash_imageNameOf (url : String) : ∀ c ∈ (imageNameOf url).data, c ≠ '/' :=
  noSlash_append (noSlash_sha256hex url) (noSlash_splitext_ext (urlparsePath url))

/-! ### No cache path is an output path -/

theorem lastSeg_of_OutPath {root p : String} (h : OutPath root p) :
    lastSeg p = "Makefile" ∨ lastSeg p = "index.asciidoc" := by
  rcases h with h | h | ⟨s, hs, h⟩
  · left; rw [h]; exact lastSeg_joinPath _ _ (by decide)
  · right; rw [h]; exact lastSeg_joinPath _ _ (by decide)
  · right; rw [h]; exact lastSeg_joinPath _ _ (by decide)

theorem not_OutPath_pageCache (root url : String) :
    ¬ OutPath root (pageCachePathOf url root) := by
  intro h
  have hl : lastSeg (pageCachePathOf url root) = sha256hex url ++ ".html" := by
    unfold pageCachePathOf
    exact lastSeg_joinPath _ _ (noSlash_append (noSlash_sha256hex url) (by decide))
  have hlen : (sha256hex url ++ ".html").length = 69 := by
    rw [String.length_append, sha256hex_length]
    rfl
  rcases lastSeg_of_OutPath h with h2 | h2 <;> rw [hl] at h2
  · have h3 := congrArg String.length h2
    rw [hlen] at h3
    exact absurd h3 (by decide)
  · have h3 := congrArg String.length h2
    rw [hlen] at h3
    exact absurd h3 (by decide)

theorem not_OutPath_image (root url : String) :
    ¬ OutPath root (imagePathOf url root) := by
  intro h
  have hl : lastSeg (imagePathOf url root) = imageNameOf url := by
    unfold imagePathOf
    exact lastSeg_joinPath _ _ (noSlash_imageNameOf url)
  have hlen : 64 ≤ (imageNameOf url).length := by
    unfold imageNameOf
    rw [String.length_append, sha256hex_length]
    omega
  rcases lastSeg_of_OutPath h with h2 | h2 <;> rw [hl] at h2
  · have h3 := congrArg String.length h2
    rw [show ("Makefile" : String).length = 8 from rfl] at h3
    omega
  · have h3 := congrArg String.length h2
    rw [show ("index.asciidoc" : String).length = 14 from rfl] at h3
    omega


/-! ### Filesystem and fetch-layer lemmas -/

theorem mkdir_files (fs : FS) (d : String) : (fs.mkdir d).files = fs.files := rfl

theorem write_files_self (fs : FS) (p c : String) : (fs.write p c).files p = some c := by
  simp [FS.write]

theorem write_files_ne (fs : FS) (p c q : String) (h : q ≠ p) :
    (fs.write p c).files q = fs.files q := by
  simp [FS.write, h]

theorem compute_image_path_eq (fs : FS) (url root : String) :
    compute_image_path fs url root =
      (fs.mkdir (joinPath root ".cached"), imagePathOf url root, imageNameOf url) := rfl

theorem load_hit {http : Http} {fs : FS} {url fp c : String}
    (hc : fs.files fp = some c) :
    load_file_content http fs url fp = .ok (c, fs, []) := by
  simp [load_file_content, hc]

theorem load_mono {http : Http} {fs : FS} {url fp c : String} {fs2 : FS} {rq : List String}
    (h : load_file_content http fs url fp = .ok (c, fs2, rq)) :
    (∀ p x, fs.files p = some x → fs2.files p = some x) ∧ fs2.files fp = some c := by
  cases hf : fs.files fp with
  | some c0 =>
    simp only [load_file_content, hf] at h
    simp only [Except.ok.injEq, Prod.mk.injEq] at h
    obtain ⟨rfl, rfl, rfl⟩ := h
    exact ⟨fun p x hx => hx, hf⟩
  | none =>
    simp only [load_file_content, hf] at h
    split at h
    · exact Except.noConfusion h
    · simp only [Except.ok.injEq, Prod.mk.injEq] at h
      obtain ⟨rfl, rfl, rfl⟩ := h
      constructor
      · intro p x hx
        by_cases hp : p = fp
        · rw [hp, hf] at hx
          exact Option.noConfusion hx
        · rw [write_files_ne fs fp _ p hp]
          exact hx
      · exact write_files_self fs fp _

theorem download_image_hit {http : Http} {fs : FS} {url root x : String}
    (hx : fs.files (imagePathOf url root) = some x) :
    download_image http fs url root =
      .ok (imageNameOf url, fs.mkdir (joinPath root ".cached"), []) := by
  unfold download_image
  rw [compute_image_path_eq]
  simp only [mkdir_files, hx]

theorem download_image_mono {http : Http} {fs : FS} {url root nm : String} {fs2 : FS}
    {rq : List String}
    (h : download_image http fs url root = .ok (nm, fs2, rq)) :
    (∀ p x, fs.files p = some x → fs2.files p = some x) ∧
    (∃ y, fs2.files (imagePathOf url root) = some y) ∧
    nm = imageNameOf url := by
  rw [download_image, compute_image_path_eq] at h
  cases hx : fs.files (imagePathOf url root) with
  | some x =>
    simp only [mkdir_files, hx] at h
    simp only [Except.ok.injEq, Prod.mk.injEq] at h
    obtain ⟨rfl, rfl, rfl⟩ := h
    exact ⟨fun p y hy => hy, ⟨x, hx⟩, rfl⟩
  | none =>
    simp only [mkdir_files, hx] at h
    split at h
    · exact Except.noConfusion h
    · simp only [Except.ok.injEq, Prod.mk.injEq] at h
      obtain ⟨rfl, rfl, rfl⟩ := h
      refine ⟨fun p y hy => ?_, ⟨_, write_files_self _ _ _⟩, rfl⟩
      by_cases hp : p = imagePathOf url root
      · rw [hp, hx] at hy
        exact Option.noConfusion hy
      · rw [write_files_ne _ _ _ _ hp]
        exact hy


/-! ### Image-pass replay -/

theorem transform_img_one_mono {http : Http} {su root : String}
    {a : List (String × String)} {fs : FS} {repl : String} {fs2 : FS} {rq : List String}
    (h : transform_img_one http su root a fs = .ok (repl, fs2, rq)) :
    ∀ p x, fs.files p = some x → fs2.files p = some x := by
  unfold transform_img_one at h
  cases halt : assocFind a "alt" with
  | none => rw [halt] at h; exact Except.noConfusion h
  | some alt =>
    rw [halt] at h
    dsimp only at h
    cases hsrc : assocFind a "src" with
    | none => rw [hsrc] at h; exact Except.noConfusion h
    | some src =>
      rw [hsrc] at h
      dsimp only at h
      cases hsel : (match assocFind a "srcset" with
        | none => Except.ok (src, (assocFind a "width").getD "", (assocFind a "height").getD "")
        | some srcset =>
            srcsetSelect srcset ((assocFind a "width").getD "") ((assocFind a "height").getD "")) with
      | error e => rw [hsel] at h; exact Except.noConfusion h
      | ok sel =>
        rw [hsel] at h
        obtain ⟨s2, w2, h2⟩ := sel
        dsimp only at h
        cases hdl : download_image http fs (urljoin su s2) root with
        | error e => rw [hdl] at h; exact Except.noConfusion h
        | ok r =>
          obtain ⟨nm, fs3, rq3⟩ := r
          rw [hdl] at h
          simp only [Except.ok.injEq, Prod.mk.injEq] at h
          obtain ⟨-, rfl, rfl⟩ := h
          exact (download_image_mono hdl).1

theorem transform_img_one_replay {http : Http} {su root : String}
    {a : List (String × String)} {fs : FS} {repl : String} {fs2 : FS} {rq : List String}
    (h : transform_img_one http su root a fs = .ok (repl, fs2, rq))
    (g : FS) (hg : CacheSup root fs2 g) :
    ∃ g2 : FS, transform_img_one http su root a g = .ok (repl, g2, []) ∧ g2.files = g.files := by
  unfold transform_img_one at h ⊢
  revert h
  cases halt : assocFind a "alt" with
  | none => intro h; exact Except.noConfusion h
  | some alt =>
    intro h
    dsimp only at h ⊢
    revert h
    cases hsrc : assocFind a "src" with
    | none => intro h; exact Except.noConfusion h
    | some src =>
      intro h
      dsimp only at h ⊢
      revert h
      cases hsel : (match assocFind a "srcset" with
        | none => Except.ok (src, (assocFind a "width").getD "", (assocFind a "height").getD "")
        | some srcset =>
            srcsetSelect srcset ((assocFind a "width").getD "") ((assocFind a "height").getD "")) with
      | error e => intro h; exact Except.noConfusion h
      | ok sel =>
        obtain ⟨s2, w2, h2⟩ := sel
        intro h
        dsimp only at h ⊢
        revert h
        cases hdl : download_image http fs (urljoin su s2) root with
        | error e => intro h; exact Except.noConfusion h
        | ok r =>
          obtain ⟨nm, fs3, rq3⟩ := r
          intro h
          dsimp only at h
          revert h
          intro h
          simp only [Except.ok.injEq, Prod.mk.injEq] at h
          obtain ⟨hrepl, rfl, rfl⟩ := h
          obtain ⟨hpres, ⟨y, hy⟩, hnm⟩ := download_image_mono hdl
          have hgy : g.files (imagePathOf (urljoin su s2) root) = some y := by
            rcases hg _ _ hy with hout | hgy
            · exact absurd hout (not_OutPath_image root (urljoin su s2))
            · exact hgy
          rw [download_image_hit hgy]
          refine ⟨g.mkdir (joinPath root ".cached"), ?_, rfl⟩
          rw [← hrepl, hnm]

/-! ### Tree-level image-pass replay -/

mutual
theorem transformImgOne_mono (http : Http) (su root : String) :
    ∀ (t : Node) (fs : FS) (t2 : Node) (fs2 : FS) (rq : List String),
      transformImgOne http su root t fs = .ok (t2, fs2, rq) →
      ∀ p x, fs.files p = some x → fs2.files p = some x
  | .text s, fs, t2, fs2, rq, h => by
    simp only [transformImgOne, Except.ok.injEq, Prod.mk.injEq] at h
    obtain ⟨-, rfl, rfl⟩ := h
    exact fun p x hx => hx
  | .elem n a cs, fs, t2, fs2, rq, h => by
    simp only [transformImgOne] at h
    by_cases hn : n = "img"
    · rw [if_pos hn] at h
      cases hone : transform_img_one http su root a fs with
      | error e => rw [hone] at h; exact Except.noConfusion h
      | ok r =>
        obtain ⟨repl, fs3, rq3⟩ := r
        rw [hone] at h
        simp only [Except.ok.injEq, Prod.mk.injEq] at h
        obtain ⟨-, rfl, rfl⟩ := h
        exact transform_img_one_mono hone
    · rw [if_neg hn] at h
      cases hcs : transformImgL http su root cs fs with
      | error e => rw [hcs] at h; exact Except.noConfusion h
      | ok r =>
        obtain ⟨cs2, fs3, rq3⟩ := r
        rw [hcs] at h
        simp only [Except.ok.injEq, Prod.mk.injEq] at h
        obtain ⟨-, rfl, rfl⟩ := h
        exact transformImgL_mono http su root cs fs cs2 fs3 rq3 hcs
theorem transformImgL_mono (http : Http) (su root : String) :
    ∀ (l : NodeList) (fs : FS) (l2 : NodeList) (fs2 : FS) (rq : List String),
      transformImgL http su root l fs = .ok (l2, fs2, rq) →
      ∀ p x, fs.files p = some x → fs2.files p = some x
  | .nil, fs, l2, fs2, rq, h => by
    simp only [transformImgL, Except.ok.injEq, Prod.mk.injEq] at h
    obtain ⟨-, rfl, rfl⟩ := h
    exact fun p x hx => hx
  | .cons t ts, fs, l2, fs2, rq, h => by
    simp only [transformImgL] at h
    cases hone : transformImgOne http su root t fs with
    | error e => rw [hone] at h; exact Except.noConfusion h
    | ok r =>
      obtain ⟨t2, fs1, rq1⟩ := r
      rw [hone] at h
      simp only at h
      cases hts : transformImgL http su root ts fs1 with
      | error e => rw [hts] at h; exact Except.noConfusion h
      | ok r2 =>
        obtain ⟨ts2, fs3, rq2⟩ := r2
        rw [hts] at h
        simp only [Except.ok.injEq, Prod.mk.injEq] at h
        obtain ⟨-, rfl, rfl⟩ := h
        intro p x hx
        exact transformImgL_mono http su root ts fs1 ts2 fs3 rq2 hts p x
          (transformImgOne_mono http su root t fs t2 fs1 rq1 hone p x hx)
end


mutual
theorem transformImgOne_replay (http : Http) (su root : String) :
    ∀ (t : Node) (fs : FS) (t2 : Node) (fs2 : FS) (rq : List String),
      transformImgOne http su root t fs = .ok (t2, fs2, rq) →
      ∀ g : FS, CacheSup root fs2 g →
      ∃ g2 : FS, transformImgOne http su root t g = .ok (t2, g2, []) ∧ g2.files = g.files
  | .text s, fs, t2, fs2, rq, h, g, hg => by
    simp only [transformImgOne, Except.ok.injEq, Prod.mk.injEq] at h ⊢
    obtain ⟨rfl, rfl, rfl⟩ := h
    exact ⟨g, by simp, rfl⟩
  | .elem n a cs, fs, t2, fs2, rq, h, g, hg => by
    simp only [transformImgOne] at h ⊢
    by_cases hn : n = "img"
    · rw [if_pos hn] at h ⊢
      revert h
      cases hone : transform_img_one http su root a fs with
      | error e => intro h; exact Except.noConfusion h
      | ok r =>
        obtain ⟨repl, fs3, rq3⟩ := r
        intro h
        simp only [Except.ok.injEq, Prod.mk.injEq] at h
        obtain ⟨rfl, rfl, rfl⟩ := h
        obtain ⟨g2, hg2, hgf⟩ := transform_img_one_replay hone g hg
        rw [hg2]
        exact ⟨g2, rfl, hgf⟩
    · rw [if_neg hn] at h ⊢
      revert h
      cases hcs : transformImgL http su root cs fs with
      | error e => intro h; exact Except.noConfusion h
      | ok r =>
        obtain ⟨cs2, fs3, rq3⟩ := r
        intro h
        simp only [Except.ok.injEq, Prod.mk.injEq] at h
        obtain ⟨rfl, rfl, rfl⟩ := h
        obtain ⟨g2, hg2, hgf⟩ := transformImgL_replay http su root cs fs cs2 fs3 rq3 hcs g hg
        rw [hg2]
        exact ⟨g2, rfl, hgf⟩
theorem transformImgL_replay (http : Http) (su root : String) :
    ∀ (l : NodeList) (fs : FS) (l2 : NodeList) (fs2 : FS) (rq : List String),
      transformImgL http su root l fs = .ok (l2, fs2, rq) →
      ∀ g : FS, CacheSup root fs2 g →
      ∃ g2 : FS, transformImgL http su root l g = .ok (l2, g2, []) ∧ g2.files = g.files
  | .nil, fs, l2, fs2, rq, h, g, hg => by
    simp only [transformImgL, Except.ok.injEq, Prod.mk.injEq] at h ⊢
    obtain ⟨rfl, rfl, rfl⟩ := h
    exact ⟨g, by simp, rfl⟩
  | .cons t ts, fs, l2, fs2, rq, h, g, hg => by
    simp only [transformImgL] at h ⊢
    revert h
    cases hone : transformImgOne http su root t fs with
    | error e => intro h; exact Except.noConfusion h
    | ok r =>
      obtain ⟨t2, fs1, rq1⟩ := r
      intro h
      dsimp only at h
      revert h
      cases hts : transformImgL http su root ts fs1 with
      | error e => intro h; exact Except.noConfusion h
      | ok r2 =>
        obtain ⟨ts2, fs3, rq2⟩ := r2
        intro h
        simp only [Except.ok.injEq, Prod.mk.injEq] at h
        obtain ⟨rfl, rfl, rfl⟩ := h
        have hg1 : CacheSup root fs1 g := fun p c hpc =>
          hg p c (transformImgL_mono http su root ts fs1 ts2 fs3 rq2 hts p c hpc)
        obtain ⟨g1, hgr1, hgf1⟩ := transformImgOne_replay http su root t fs t2 fs1 rq1 hone g hg1
        have hg2 : CacheSup root fs3 g1 := fun p c hpc => by
          rcases hg p c hpc with hout | hin
          · exact Or.inl hout
          · right; rw [hgf1]; exact hin
        obtain ⟨g2, hgr2, hgf2⟩ :=
          transformImgL_replay http su root ts fs1 ts2 fs3 rq2 hts g1 hg2
        rw [hgr1]
        dsimp only
        rw [hgr2]
        refine ⟨g2, rfl, by rw [hgf2, hgf1]⟩
end


/-! ### Transform-level replay -/

theorem transform_mono {tk : TransformerKind} {http : Http} {su root : String}
    {content : Node} {fs : FS} {c2 : Node} {fs2 : FS} {rq : List String}
    (h : transform tk http su root content fs = .ok (c2, fs2, rq)) :
    ∀ p x, fs.files p = some x → fs2.files p = some x := by
  unfold transform at h
  dsimp only at h
  revert h
  cases himg : transformImgL http su root
      (transform_italic (transform_strong content.children)) fs with
  | error e => intro h; exact Except.noConfusion h
  | ok r =>
    obtain ⟨cs2, fs1, rq1⟩ := r
    intro h
    dsimp only at h
    revert h
    cases hA : transformAL cs2 with
    | error e => intro h; exact Except.noConfusion h
    | ok cs3 =>
      intro h
      dsimp only at h
      cases tk with
      | base =>
        dsimp only at h
        simp only [Except.ok.injEq, Prod.mk.injEq] at h
        obtain ⟨-, rfl, rfl⟩ := h
        exact transformImgL_mono http su root _ fs cs2 fs1 rq1 himg
      | untools =>
        dsimp only at h
        revert h
        cases hsrc : transform_sources cs3 with
        | none => intro h; exact Except.noConfusion h
        | some cs4 =>
          intro h
          simp only [Except.ok.injEq, Prod.mk.injEq] at h
          obtain ⟨-, rfl, rfl⟩ := h
          exact transformImgL_mono http su root _ fs cs2 fs1 rq1 himg

theorem transform_replay {tk : TransformerKind} {http : Http} {su root : String}
    {content : Node} {fs : FS} {c2 : Node} {fs2 : FS} {rq : List String}
    (h : transform tk http su root content fs = .ok (c2, fs2, rq))
    (g : FS) (hg : CacheSup root fs2 g) :
    ∃ g2 : FS, transform tk http su root content g = .ok (c2, g2, []) ∧ g2.files = g.files := by
  unfold transform at h ⊢
  dsimp only at h ⊢
  revert h
  cases himg : transformImgL http su root
      (transform_italic (transform_strong content.children)) fs with
  | error e => intro h; exact Except.noConfusion h
  | ok r =>
    obtain ⟨cs2, fs1, rq1⟩ := r
    intro h
    dsimp only at h
    revert h
    cases hA : transformAL cs2 with
    | error e => intro h; exact Except.noConfusion h
    | ok cs3 =>
      intro h
      dsimp only at h
      cases tk with
      | base =>
        dsimp only at h ⊢
        simp only [Except.ok.injEq, Prod.mk.injEq] at h
        obtain ⟨rfl, rfl, rfl⟩ := h
        obtain ⟨g2, hrep, hgf⟩ :=
          transformImgL_replay http su root _ fs cs2 fs1 rq1 himg g hg
        rw [hrep]
        dsimp only
        rw [hA]
        exact ⟨g2, rfl, hgf⟩
      | untools =>
        dsimp only at h ⊢
        revert h
        cases hsrc : transform_sources cs3 with
        | none => intro h; exact Except.noConfusion h
        | some cs4 =>
          intro h
          simp only [Except.ok.injEq, Prod.mk.injEq] at h
          obtain ⟨rfl, rfl, rfl⟩ := h
          obtain ⟨g2, hrep, hgf⟩ :=
            transformImgL_replay http su root _ fs cs2 fs1 rq1 himg g hg
          rw [hrep]
          dsimp only
          rw [hA]
          dsimp only
          rw [hsrc]
          exact ⟨g2, rfl, hgf⟩


/-! ### download_content replay -/

theorem download_content_mono {http : Http} {parse : String → Node} {fs : FS}
    {url root : String} {art : String × String} {fs2 : FS} {rq : List String}
    (h : download_content http parse fs url root = .ok (art, fs2, rq)) :
    ∀ p x, fs.files p = some x → fs2.files p = some x ∨ OutPath root p := by
  unfold download_content at h
  dsimp only at h
  revert h
  cases hload : load_file_content http
      (fs.mkdir (joinPath root (basename (rstripSlash (urlparsePath url))))) url
      (joinPath (joinPath root ".cached") (sha256hex url ++ ".html")) with
  | error e => intro h; exact Except.noConfusion h
  | ok r =>
    obtain ⟨content, fs1, rq1⟩ := r
    intro h
    dsimp only at h
    revert h
    cases ht : extractor_get_title (create_extractor url) (parse content) with
    | error e => intro h; exact Except.noConfusion h
    | ok title =>
      intro h
      dsimp only at h
      revert h
      cases hmd : extractor_get_metadata (create_extractor url) (parse content) with
      | error e => intro h; exact Except.noConfusion h
      | ok md =>
        intro h
        dsimp only at h
        revert h
        cases hcl : extractor_cleanup (create_extractor url) (parse content) with
        | error e => intro h; exact Except.noConfusion h
        | ok site =>
          intro h
          dsimp only at h
          revert h
          cases hgc : extractor_get_content (create_extractor url) site with
          | error e => intro h; exact Except.noConfusion h
          | ok contentNode =>
            intro h
            dsimp only at h
            revert h
            cases htr : transform (create_transformer url) http url root contentNode fs1 with
            | error e => intro h; exact Except.noConfusion h
            | ok r2 =>
              obtain ⟨contentNode2, fs3, rq2⟩ := r2
              intro h
              simp only [Except.ok.injEq, Prod.mk.injEq] at h
              obtain ⟨-, rfl, rfl⟩ := h
              intro p x hx
              have h1 : fs1.files p = some x :=
                (load_mono hload).1 p x hx
              have h2 : fs3.files p = some x := transform_mono htr p x h1
              by_cases hp : p = joinPath (joinPath root (basename (rstripSlash (urlparsePath url))))
                  "index.asciidoc"
              · right
                exact Or.inr (Or.inr ⟨basename (rstripSlash (urlparsePath url)),
                  noSlash_basename _, hp⟩)
              · left
                rw [write_files_ne _ _ _ _ hp]
                exact h2


theorem download_content_replay {http : Http} {parse : String → Node} {fs : FS}
    {url root : String} {art : String × String} {fs2 : FS} {rq : List String}
    (h : download_content http parse fs url root = .ok (art, fs2, rq))
    (g : FS) (hg : CacheSup root fs2 g) :
    ∃ g2 : FS, download_content http parse g url root = .ok (art, g2, []) ∧
      ∀ p, ¬ OutPath root p → g2.files p = g.files p := by
  unfold download_content at h ⊢
  dsimp only at h ⊢
  revert h
  cases hload : load_file_content http
      (fs.mkdir (joinPath root (basename (rstripSlash (urlparsePath url))))) url
      (joinPath (joinPath root ".cached") (sha256hex url ++ ".html")) with
  | error e => intro h; exact Except.noConfusion h
  | ok r =>
    obtain ⟨content, fs1, rq1⟩ := r
    intro h
    dsimp only at h
    revert h
    cases ht : extractor_get_title (create_extractor url) (parse content) with
    | error e => intro h; exact Except.noConfusion h
    | ok title =>
      intro h
      dsimp only at h
      revert h
      cases hmd : extractor_get_metadata (create_extractor url) (parse content) with
      | error e => intro h; exact Except.noConfusion h
      | ok md =>
        intro h
        dsimp only at h
        revert h
        cases hcl : extractor_cleanup (create_extractor url) (parse content) with
        | error e => intro h; exact Except.noConfusion h
        | ok site =>
          intro h
          dsimp only at h
          revert h
          cases hgc : extractor_get_content (create_extractor url) site with
          | error e => intro h; exact Except.noConfusion h
          | ok contentNode =>
            intro h
            dsimp only at h
            revert h
            cases htr : transform (create_transformer url) http url root contentNode fs1 with
            | error e => intro h; exact Except.noConfusion h
            | ok r2 =>
              obtain ⟨contentNode2, fs3, rq2⟩ := r2
              intro h
              simp only [Except.ok.injEq, Prod.mk.injEq] at h
              obtain ⟨rfl, rfl, rfl⟩ := h
              have houtP : OutPath root (joinPath
                  (joinPath root (basename (rstripSlash (urlparsePath url)))) "index.asciidoc") :=
                Or.inr (Or.inr ⟨basename (rstripSlash (urlparsePath url)),
                  noSlash_basename _, rfl⟩)
              have hpcne : joinPath (joinPath root ".cached") (sha256hex url ++ ".html") ≠
                  joinPath (joinPath root (basename (rstripSlash (urlparsePath url))))
                    "index.asciidoc" := by
                intro he
                apply not_OutPath_pageCache root url
                show OutPath root (pageCachePathOf url root)
                rw [show pageCachePathOf url root =
                  joinPath (joinPath root ".cached") (sha256hex url ++ ".html") from rfl, he]
                exact houtP
              have hkeep : ((fs3.write (joinPath
                  (joinPath root (basename (rstripSlash (urlparsePath url)))) "index.asciidoc")
                  (titleLine title ++
                    ("link:" ++ url ++ "[original article] " ++
                      (match extractor_get_published (parse content) with
                        | some t => "published on " ++ t
                        | none => "") ++ "\n\n" ++ md) ++
                    (render_tags (create_renderer url) contentNode2.children).1)).files
                  (joinPath (joinPath root ".cached") (sha256hex url ++ ".html"))) =
                  some content := by
                rw [write_files_ne _ _ _ _ hpcne]
                exact transform_mono htr _ _ ((load_mono hload).2)
              have hgpc : (g.mkdir (joinPath root
                  (basename (rstripSlash (urlparsePath url))))).files
                  (joinPath (joinPath root ".cached") (sha256hex url ++ ".html")) =
                  some content := by
                rw [mkdir_files]
                rcases hg _ _ hkeep with hout | hin
                · exact absurd hout (not_OutPath_pageCache root url)
                · exact hin
              rw [load_hit hgpc]
              dsimp only
              rw [ht]
              dsimp only
              rw [hmd]
              dsimp only
              rw [hcl]
              dsimp only
              rw [hgc]
              dsimp only
              have hgm : CacheSup root fs3
                  (g.mkdir (joinPath root (basename (rstripSlash (urlparsePath url))))) := by
                intro p c hpc
                by_cases hp : p = joinPath
                    (joinPath root (basename (rstripSlash (urlparsePath url)))) "index.asciidoc"
                · exact Or.inl (hp ▸ houtP)
                · have h2 : ((fs3.write (joinPath
                      (joinPath root (basename (rstripSlash (urlparsePath url))))
                      "index.asciidoc")
                      (titleLine title ++
                        ("link:" ++ url ++ "[original article] " ++
                          (match extractor_get_published (parse content) with
                            | some t => "published on " ++ t
                            | none => "") ++ "\n\n" ++ md) ++
                        (render_tags (create_renderer url) contentNode2.children).1)).files p) =
                      some c := by
                    rw [write_files_ne _ _ _ _ hp]
                    exact hpc
                  rcases hg _ _ h2 with hout | hin
                  · exact Or.inl hout
                  · right
                    rw [mkdir_files]
                    exact hin
              obtain ⟨g3, hrep3, hgf3⟩ := transform_replay htr _ hgm
              rw [hrep3]
              dsimp only
              refine ⟨_, rfl, ?_⟩
              intro p hp
              have hpne : p ≠ joinPath
                  (joinPath root (basename (rstripSlash (urlparsePath url)))) "index.asciidoc" := by
                intro he
                exact hp (he ▸ houtP)
              rw [write_files_ne _ _ _ _ hpne, hgf3, mkdir_files]


/-! ### Per-URL loop replay and the idempotence theorem -/

theorem processUrls_mono (us : List String) :
    ∀ {http : Http} {parse : String → Node} {root : String} {fs : FS}
      {arts : List (String × String)} {rels : List String} {fs2 : FS} {rq : List String},
      processUrls http parse root us fs = .ok (arts, rels, fs2, rq) →
      ∀ p x, fs.files p = some x → fs2.files p = some x ∨ OutPath root p := by
  induction us with
  | nil =>
    intro http parse root fs arts rels fs2 rq h p x hx
    simp only [processUrls, Except.ok.injEq, Prod.mk.injEq] at h
    obtain ⟨-, -, rfl, -⟩ := h
    exact Or.inl hx
  | cons u uss ih =>
    intro http parse root fs arts rels fs2 rq h p x hx
    simp only [processUrls] at h
    revert h
    cases hdc : download_content http parse fs u root with
    | error e => intro h; exact Except.noConfusion h
    | ok r =>
      obtain ⟨⟨opath, bytes⟩, fs1, rq1⟩ := r
      intro h
      dsimp only at h
      revert h
      cases hrest : processUrls http parse root uss fs1 with
      | error e => intro h; exact Except.noConfusion h
      | ok r2 =>
        obtain ⟨arts2, rels2, fs3, rq2⟩ := r2
        intro h
        simp only [Except.ok.injEq, Prod.mk.injEq] at h
        obtain ⟨-, -, rfl, -⟩ := h
        rcases download_content_mono hdc p x hx with h1 | hout
        · exact ih hrest p x h1
        · exact Or.inr hout

theorem processUrls_replay (us : List String) :
    ∀ {http : Http} {parse : String → Node} {root : String} {fs : FS}
      {arts : List (String × String)} {rels : List String} {fs2 : FS} {rq : List String},
      processUrls http parse root us fs = .ok (arts, rels, fs2, rq) →
      ∀ g : FS, CacheSup root fs2 g →
      ∃ g2 : FS, processUrls http parse root us g = .ok (arts, rels, g2, []) ∧
        ∀ p, ¬ OutPath root p → g2.files p = g.files p := by
  induction us with
  | nil =>
    intro http parse root fs arts rels fs2 rq h g hg
    simp only [processUrls, Except.ok.injEq, Prod.mk.injEq] at h ⊢
    obtain ⟨rfl, rfl, rfl, rfl⟩ := h
    exact ⟨g, by simp, fun p _ => rfl⟩
  | cons u uss ih =>
    intro http parse root fs arts rels fs2 rq h g hg
    simp only [processUrls] at h ⊢
    revert h
    cases hdc : download_content http parse fs u root with
    | error e => intro h; exact Except.noConfusion h
    | ok r =>
      obtain ⟨⟨opath, bytes⟩, fs1, rq1⟩ := r
      intro h
      dsimp only at h
      revert h
      cases hrest : processUrls http parse root uss fs1 with
      | error e => intro h; exact Except.noConfusion h
      | ok r2 =>
        obtain ⟨arts2, rels2, fs3, rq2⟩ := r2
        intro h
        simp only [Except.ok.injEq, Prod.mk.injEq] at h
        obtain ⟨rfl, rfl, rfl, rfl⟩ := h
        have hg1 : CacheSup root fs1 g := by
          intro p c hpc
          rcases processUrls_mono uss hrest p c hpc with h2 | hout
          · exact hg p c h2
          · exact Or.inl hout
        obtain ⟨g1, hgr1, hpres1⟩ := download_content_replay hdc g hg1
        have hg2 : CacheSup root fs3 g1 := by
          intro p c hpc
          rcases hg p c hpc with hout | hin
          · exact Or.inl hout
          · by_cases ho : OutPath root p
            · exact Or.inl ho
            · right
              rw [hpres1 p ho]
              exact hin
        obtain ⟨g2, hgr2, hpres2⟩ := ih hrest g1 hg2
        rw [hgr1]
        dsimp only
        rw [hgr2]
        refine ⟨g2, by simp, ?_⟩
        intro p hp
        rw [hpres2 p hp, hpres1 p hp]

/-- C7: running the pipeline a second time over the filesystem a successful
first run leaves behind makes no network request and writes byte-identical
artifacts — the same per-URL output files (same paths, same bytes) and the
same master index. -/
theorem pipeline_idempotent (http : Http) (parse : String → Node) (cfg : Cfg) (fs : FS)
    (r1 : MainRes) (h1 : mainRun http parse cfg fs = .ok r1) :
    ∃ fs2 : FS, mainRun http parse cfg r1.fs = .ok ⟨fs2, [], r1.arts⟩ := by
  unfold mainRun at h1 ⊢
  dsimp only at h1 ⊢
  revert h1
  cases hpu : processUrls http parse cfg.output_dir cfg.urls
      (((fs.mkdir (joinPath cfg.output_dir ".cached")).mkdir
        (joinPath cfg.output_dir "images")).write (joinPath cfg.output_dir "Makefile")
        makefileTemplate) with
  | error e => intro h1; exact Except.noConfusion h1
  | ok r =>
    obtain ⟨arts, rels, fsP, reqs⟩ := r
    intro h1
    dsimp only at h1
    simp only [Except.ok.injEq] at h1
    subst h1
    dsimp only
    have hsup : CacheSup cfg.output_dir fsP
        ((((fsP.write (joinPath cfg.output_dir "index.asciidoc")
            (indexContent cfg rels)).mkdir (joinPath cfg.output_dir ".cached")).mkdir
          (joinPath cfg.output_dir "images")).write (joinPath cfg.output_dir "Makefile")
          makefileTemplate) := by
      intro p c hpc
      by_cases hidx : p = joinPath cfg.output_dir "index.asciidoc"
      · exact Or.inl (Or.inr (Or.inl hidx))
      · by_cases hmk : p = joinPath cfg.output_dir "Makefile"
        · exact Or.inl (Or.inl hmk)
        · right
          rw [write_files_ne _ _ _ _ hmk, mkdir_files, mkdir_files,
            write_files_ne _ _ _ _ hidx]
          exact hpc
    obtain ⟨g2, hgr, hpres⟩ := processUrls_replay cfg.urls hpu _ hsup
    rw [hgr]
    dsimp only
    exact ⟨g2.write (joinPath cfg.output_dir "index.asciidoc") (indexContent cfg rels), rfl⟩


/-- C7 witness: a concrete one-URL configuration over a stub HTTP client
and parser.  The first run succeeds and fetches the page once; the second
run over the filesystem the first run leaves behind makes no request and
produces byte-identical artifacts. -/
theorem pipeline_idempotent_witness :
    (mainRun wHttp wParse wCfg emptyFS).isOk = true ∧
    okReqs (mainRun wHttp wParse wCfg emptyFS) = [wUrl] ∧
    okReqs (mainRun wHttp wParse wCfg (okFS (mainRun wHttp wParse wCfg emptyFS))) = [] ∧
    okArts (mainRun wHttp wParse wCfg (okFS (mainRun wHttp wParse wCfg emptyFS))) =
      okArts (mainRun wHttp wParse wCfg emptyFS) := by
  have hok : (mainRun wHttp wParse wCfg emptyFS).isOk = true := by decide
  have hreq : okReqs (mainRun wHttp wParse wCfg emptyFS) = [wUrl] := by decide
  cases hr : mainRun wHttp wParse wCfg emptyFS with
  | error e =>
    rw [hr] at hok
    exact absurd hok (by simp [Except.isOk, Except.toBool])
  | ok r1 =>
    obtain ⟨fs2, h2⟩ := pipeline_idempotent wHttp wParse wCfg emptyFS r1 hr
    rw [hr] at hreq
    refine ⟨rfl, hreq, ?_, ?_⟩
    · show okReqs (mainRun wHttp wParse wCfg r1.fs) = []
      rw [h2]
      rfl
    · show okArts (mainRun wHttp wParse wCfg r1.fs) = okArts (.ok r1)
      rw [h2]
      rfl

end Symphony
